import Mathlib

/-!
Verification of the buildings-visualizer image pipeline.

This file gives a shallow embedding of the repository's key-value store
adapters (`redis.server.ts` and `sqlite.server.ts`), the JSON
encode/decode behaviour they rely on (`JSON.stringify` / `JSON.parse`),
the generation client (`chatgpt.ts`), the asynchronous continuation
(`processAndStoreImage`), the image normalizer (`convertToPng`), the image
and status loaders, and the comparison widget position computation
(`ImageFlipper`), together with theorems settling the specification
claims about them.
-/

set_option maxHeartbeats 1000000

mutual

/-- A JSON value, as consumed by `JSON.stringify` and produced by
`JSON.parse` in the adapters. Numbers are modelled as integers (the
adapters never rely on fractional numbers). -/
inductive Json where
  | null : Json
  | bool : Bool → Json
  | num : Int → Json
  | str : String → Json
  | arr : JsonList → Json
  | obj : JsonFields → Json

/-- The elements of a JSON array. -/
inductive JsonList where
  | nil : JsonList
  | cons : Json → JsonList → JsonList

/-- The key/value fields of a JSON object. -/
inductive JsonFields where
  | nil : JsonFields
  | cons : String → Json → JsonFields → JsonFields

end

/-- Decimal digits of a natural number, most significant first; the fuel
argument only bounds the recursion depth. -/
def natCharsAux : Nat → Nat → List Char
  | 0, _ => []
  | fuel + 1, n =>
    if n < 10 then [Nat.digitChar n]
    else natCharsAux fuel (n / 10) ++ [Nat.digitChar (n % 10)]

/-- Decimal digits of a natural number, most significant first. -/
def natChars (n : Nat) : List Char := natCharsAux (n + 1) n

/-- Decimal rendering of an integer, with a leading minus sign when
negative. -/
def intChars (n : Int) : List Char :=
  if n < 0 then '-' :: natChars n.natAbs else natChars n.toNat

/-- Escape one character of a JSON string body the way `JSON.stringify`
does for quotes and backslashes. -/
def escChar (c : Char) : List Char :=
  if c = '"' then ['\\', '"']
  else if c = '\\' then ['\\', '\\']
  else [c]

/-- Escape a JSON string body. -/
def escStr : List Char → List Char
  | [] => []
  | c :: l => escChar c ++ escStr l

mutual

/-- The characters emitted by `JSON.stringify` for a value. -/
def strJson : Json → List Char
  | .null => "null".data
  | .bool true => "true".data
  | .bool false => "false".data
  | .num n => intChars n
  | .str s => '"' :: (escStr s.data ++ ['"'])
  | .arr xs => '[' :: (strElems xs ++ [']'])
  | .obj fs => '{' :: (strFields fs ++ ['}'])

/-- Comma-separated renderings of array elements. -/
def strElems : JsonList → List Char
  | .nil => []
  | .cons x .nil => strJson x
  | .cons x (.cons y tl) => strJson x ++ ',' :: strElems (.cons y tl)

/-- Comma-separated renderings of object fields. -/
def strFields : JsonFields → List Char
  | .nil => []
  | .cons k v .nil => '"' :: (escStr k.data ++ '"' :: ':' :: strJson v)
  | .cons k v (.cons k2 v2 tl) =>
    ('"' :: (escStr k.data ++ '"' :: ':' :: strJson v)) ++
      ',' :: strFields (.cons k2 v2 tl)

end

/-- Model of `JSON.stringify`. -/
def jstringify (v : Json) : String := String.mk (strJson v)

/-- Does the character list start with a decimal digit? -/
def digStart : List Char → Bool
  | [] => false
  | c :: _ => c.isDigit

/-- Consume a run of digits, accumulating their decimal value. -/
def parseDigits : List Char → Nat → Nat × List Char
  | [], acc => (acc, [])
  | c :: cs, acc =>
    if c.isDigit then parseDigits cs (acc * 10 + (c.toNat - 48))
    else (acc, c :: cs)

/-- Parse the body of a JSON string after the opening quote, undoing the
escapes of `escChar`, up to the closing quote. -/
def parseStrBody : List Char → Option (List Char × List Char)
  | [] => none
  | c :: cs =>
    if c = '"' then some ([], cs)
    else if c = '\\' then
      match cs with
      | [] => none
      | c2 :: cs2 =>
        if c2 = '"' ∨ c2 = '\\' then
          (parseStrBody cs2).map (fun p => (c2 :: p.1, p.2))
        else none
    else (parseStrBody cs).map (fun p => (c :: p.1, p.2))

mutual

/-- Fuelled model of `JSON.parse` on a character list: parse one value,
returning it with the unconsumed remainder. -/
def parseVal : Nat → List Char → Option (Json × List Char)
  | 0, _ => none
  | _ + 1, [] => none
  | fuel + 1, c :: cs =>
    if c = 'n' then
      match cs with
      | 'u' :: 'l' :: 'l' :: r => some (.null, r)
      | _ => none
    else if c = 't' then
      match cs with
      | 'r' :: 'u' :: 'e' :: r => some (.bool true, r)
      | _ => none
    else if c = 'f' then
      match cs with
      | 'a' :: 'l' :: 's' :: 'e' :: r => some (.bool false, r)
      | _ => none
    else if c = '"' then
      (parseStrBody cs).map (fun p => (.str (String.mk p.1), p.2))
    else if c = '[' then
      if cs.head? = some ']' then some (.arr .nil, cs.tail)
      else (parseElems fuel cs).map (fun p => (.arr p.1, p.2))
    else if c = '{' then
      if cs.head? = some '}' then some (.obj .nil, cs.tail)
      else (parseFields fuel cs).map (fun p => (.obj p.1, p.2))
    else if c = '-' then
      if digStart cs then
        let p := parseDigits cs 0
        some (.num (-(p.1 : Int)), p.2)
      else none
    else if c.isDigit then
      let p := parseDigits (c :: cs) 0
      some (.num (p.1 : Int), p.2)
    else none

/-- Parse one or more comma-separated array elements followed by the
closing bracket. -/
def parseElems : Nat → List Char → Option (JsonList × List Char)
  | 0, _ => none
  | fuel + 1, cs =>
    match parseVal fuel cs with
    | some (v, ',' :: r) => (parseElems fuel r).map (fun p => (.cons v p.1, p.2))
    | some (v, ']' :: r) => some (.cons v .nil, r)
    | _ => none

/-- Parse one or more comma-separated object fields followed by the
closing brace. -/
def parseFields : Nat → List Char → Option (JsonFields × List Char)
  | 0, _ => none
  | fuel + 1, cs =>
    match cs with
    | '"' :: r =>
      match parseStrBody r with
      | some (k, ':' :: r1) =>
        match parseVal fuel r1 with
        | some (v, ',' :: r2) =>
          (parseFields fuel r2).map (fun p => (.cons (String.mk k) v p.1, p.2))
        | some (v, '}' :: r2) => some (.cons (String.mk k) v .nil, r2)
        | _ => none
      | _ => none
    | _ => none

end

/-- Model of `JSON.parse`: succeeds only when the whole input is one
JSON value. -/
def jparse (s : String) : Option Json :=
  match parseVal (s.length + 1) s.data with
  | some (v, []) => some v
  | _ => none

/-- The parse-or-keep-raw pattern used throughout both adapters:
`try JSON.parse(value) catch ... value`. -/
def jparseOr (s : String) : Json := (jparse s).getD (.str s)

example : jparse "123" = some (.num 123) := rfl
example : jparse "-45" = some (.num (-45)) := rfl
example : jparse "pending" = none := rfl
example : jparse "\"pending\"" = some (.str "pending") := rfl
example : jparse "" = none := rfl
example : jparse "null" = some .null := rfl
example : jparse "true" = some (.bool true) := rfl
example : jparse "[1,2]" = some (.arr (.cons (.num 1) (.cons (.num 2) .nil))) := rfl
example : jparseOr "1.5" = .str "1.5" := rfl
example :
    jparse "\x7b\"a\":1,\"b\":[true,null]\x7d" =
      some (.obj (.cons "a" (.num 1)
        (.cons "b" (.arr (.cons (.bool true) (.cons .null .nil))) .nil))) := rfl
example : jstringify (.obj (.cons "a" (.num 1) .nil)) = "\x7b\"a\":1\x7d" := rfl
example : jstringify (.str "a\"b") = "\"a\\\"b\"" := rfl
example : jstringify (.num (-45)) = "-45" := rfl

theorem digitChar_isDigit {d : Nat} (h : d < 10) : (Nat.digitChar d).isDigit = true := by
  interval_cases d <;> decide

theorem digitChar_toNat {d : Nat} (h : d < 10) : (Nat.digitChar d).toNat - 48 = d := by
  interval_cases d <;> decide

theorem natCharsAux_cons {fuel n : Nat} (h : n < fuel) :
    ∃ c l, natCharsAux fuel n = c :: l ∧ c.isDigit = true := by
  induction fuel generalizing n with
  | zero => omega
  | succ f ih =>
    by_cases h10 : n < 10
    · exact ⟨Nat.digitChar n, [], by simp [natCharsAux, h10], digitChar_isDigit h10⟩
    · have hlt : n / 10 < f := by
        have h1 : n / 10 < n := Nat.div_lt_self (by omega) (by omega)
        omega
      obtain ⟨c, l, hcl, hc⟩ := ih hlt
      exact ⟨c, l ++ [Nat.digitChar (n % 10)], by simp [natCharsAux, h10, hcl], hc⟩

theorem natChars_cons (n : Nat) : ∃ c l, natChars n = c :: l ∧ c.isDigit = true :=
  natCharsAux_cons (by omega)

theorem parseDigits_stop {l : List Char} (acc : Nat) (h : digStart l = false) :
    parseDigits l acc = (acc, l) := by
  cases l with
  | nil => rfl
  | cons c cs =>
    simp only [digStart] at h
    simp [parseDigits, h]

theorem parseDigits_natCharsAux {fuel n : Nat} (h : n < fuel) (l2 : List Char) (acc : Nat) :
    parseDigits (natCharsAux fuel n ++ l2) acc =
      parseDigits l2 (acc * 10 ^ (natCharsAux fuel n).length + n) := by
  induction fuel generalizing n acc l2 with
  | zero => omega
  | succ f ih =>
    by_cases h10 : n < 10
    · simp [natCharsAux, h10, parseDigits, digitChar_isDigit h10, digitChar_toNat h10]
    · have hlt : n / 10 < f := by
        have h1 : n / 10 < n := Nat.div_lt_self (by omega) (by omega)
        omega
      have hmod : n % 10 < 10 := Nat.mod_lt _ (by omega)
      rw [natCharsAux]
      simp only [if_neg h10, List.append_assoc, List.cons_append, List.nil_append]
      rw [ih hlt]
      simp only [parseDigits, digitChar_isDigit hmod, digitChar_toNat hmod, if_pos]
      congr 1
      simp only [List.length_append, List.length_cons, List.length_nil]
      have hdm : 10 * (n / 10) + n % 10 = n := Nat.div_add_mod n 10
      have hpow : 10 ^ ((natCharsAux f (n / 10)).length + 1) =
          10 ^ (natCharsAux f (n / 10)).length * 10 := pow_succ 10 _
      rw [hpow]
      ring_nf
      omega

theorem parseDigits_natChars (n : Nat) (l2 : List Char) (acc : Nat) :
    parseDigits (natChars n ++ l2) acc =
      parseDigits l2 (acc * 10 ^ (natChars n).length + n) :=
  parseDigits_natCharsAux (by omega) l2 acc

theorem parseVal_digitHead (fuel : Nat) {c : Char} (cs : List Char) (hc : c.isDigit = true) :
    parseVal (fuel + 1) (c :: cs) =
      some (.num ((parseDigits (c :: cs) 0).1 : Int), (parseDigits (c :: cs) 0).2) := by
  have h1 : c ≠ 'n' := by rintro rfl; simp at hc
  have h2 : c ≠ 't' := by rintro rfl; simp at hc
  have h3 : c ≠ 'f' := by rintro rfl; simp at hc
  have h4 : c ≠ '"' := by rintro rfl; simp at hc
  have h5 : c ≠ '[' := by rintro rfl; simp at hc
  have h6 : c ≠ '{' := by rintro rfl; simp at hc
  have h7 : c ≠ '-' := by rintro rfl; simp at hc
  simp [parseVal, h1, h2, h3, h4, h5, h6, h7, hc]

theorem parseVal_num (fuel : Nat) (n : Int) {rest : List Char} (hr : digStart rest = false) :
    parseVal (fuel + 1) (intChars n ++ rest) = some (.num n, rest) := by
  by_cases hneg : n < 0
  · rw [intChars, if_pos hneg]
    obtain ⟨c, l, hcl, hc⟩ := natChars_cons n.natAbs
    have hds : digStart (natChars n.natAbs ++ rest) = true := by
      rw [hcl]; simpa [digStart] using hc
    have hpd : parseDigits (natChars n.natAbs ++ rest) 0 = (n.natAbs, rest) := by
      rw [parseDigits_natChars, parseDigits_stop _ hr]; simp
    simp only [List.cons_append]
    simp [parseVal, hds, hpd]
    rw [abs_of_neg hneg]
    exact neg_neg n
  · rw [intChars, if_neg hneg]
    obtain ⟨c, l, hcl, hc⟩ := natChars_cons n.toNat
    have hpd : parseDigits (natChars n.toNat ++ rest) 0 = (n.toNat, rest) := by
      rw [parseDigits_natChars, parseDigits_stop _ hr]; simp
    rw [hcl] at hpd ⊢
    rw [List.cons_append] at hpd ⊢
    rw [parseVal_digitHead fuel _ hc, hpd]
    have : ((n.toNat : Int)) = n := by omega
    rw [this]

theorem parseStrBody_quote (cs : List Char) : parseStrBody ('"' :: cs) = some ([], cs) := by
  rw [parseStrBody.eq_def]
  simp

theorem parseStrBody_escq (cs : List Char) :
    parseStrBody ('\\' :: '"' :: cs) = (parseStrBody cs).map (fun p => ('"' :: p.1, p.2)) := by
  rw [parseStrBody.eq_def]
  simp

theorem parseStrBody_escb (cs : List Char) :
    parseStrBody ('\\' :: '\\' :: cs) =
      (parseStrBody cs).map (fun p => ('\\' :: p.1, p.2)) := by
  rw [parseStrBody.eq_def]
  simp

theorem parseStrBody_raw {c : Char} (cs : List Char) (h1 : c ≠ '"') (h2 : c ≠ '\\') :
    parseStrBody (c :: cs) = (parseStrBody cs).map (fun p => (c :: p.1, p.2)) := by
  rw [parseStrBody.eq_def]
  simp [h1, h2]

theorem parseStrBody_escStr (s : List Char) (rest : List Char) :
    parseStrBody (escStr s ++ '"' :: rest) = some (s, rest) := by
  induction s with
  | nil => simp [escStr, parseStrBody_quote]
  | cons c tl ih =>
    by_cases h1 : c = '"'
    · subst h1
      simp [escStr, escChar, parseStrBody_escq, ih]
    · by_cases h2 : c = '\\'
      · subst h2
        simp [escStr, escChar, parseStrBody_escb, ih]
      · simp [escStr, escChar, parseStrBody_raw _ h1 h2, h1, h2, ih]

mutual

/-- Fuel sufficient for `parseVal` to parse a rendered value. -/
def muJson : Json → Nat
  | .null => 1
  | .bool _ => 1
  | .num _ => 1
  | .str _ => 1
  | .arr xs => 1 + muList xs
  | .obj fs => 1 + muFields fs

/-- Fuel sufficient for `parseElems` to parse rendered array elements. -/
def muList : JsonList → Nat
  | .nil => 0
  | .cons x tl => 1 + muJson x + muList tl

/-- Fuel sufficient for `parseFields` to parse rendered object fields. -/
def muFields : JsonFields → Nat
  | .nil => 0
  | .cons _ v tl => 1 + muJson v + muFields tl

end

theorem strJson_cons (v : Json) : ∃ c l, strJson v = c :: l ∧ c ≠ ']' := by
  cases v with
  | null => exact ⟨'n', _, rfl, by decide⟩
  | bool b =>
    cases b with
    | false => exact ⟨'f', _, rfl, by decide⟩
    | true => exact ⟨'t', _, rfl, by decide⟩
  | num n =>
    by_cases hneg : n < 0
    · exact ⟨'-', natChars n.natAbs, by simp [strJson, intChars, hneg], by decide⟩
    · obtain ⟨c, l, hcl, hc⟩ := natChars_cons n.toNat
      refine ⟨c, l, by simp [strJson, intChars, hneg, hcl], ?_⟩
      rintro rfl
      simp at hc
  | str s => exact ⟨'"', _, rfl, by decide⟩
  | arr xs => exact ⟨'[', _, rfl, by decide⟩
  | obj fs => exact ⟨'{', _, rfl, by decide⟩

theorem strElems_head (x : Json) (tl : JsonList) :
    ∃ c l, strElems (.cons x tl) = c :: l ∧ c ≠ ']' := by
  obtain ⟨c, l, hcl, hc⟩ := strJson_cons x
  cases tl with
  | nil => exact ⟨c, l, by simp [strElems, hcl], hc⟩
  | cons y tl2 =>
    exact ⟨c, l ++ ',' :: strElems (.cons y tl2), by simp [strElems, hcl], hc⟩

theorem strFields_head (k : String) (v : Json) (tl : JsonFields) :
    ∃ l, strFields (.cons k v tl) = '"' :: l := by
  cases tl with
  | nil =>
    exact ⟨escStr k.data ++ '"' :: ':' :: strJson v, by simp [strFields]⟩
  | cons k2 v2 tl2 =>
    exact ⟨(escStr k.data ++ '"' :: ':' :: strJson v) ++
      ',' :: strFields (JsonFields.cons k2 v2 tl2), by simp [strFields]⟩

theorem stringMk_data (s : String) : String.mk s.data = s := rfl

theorem data_null_lit : ("null" : String).data = ['n', 'u', 'l', 'l'] := rfl

theorem data_true_lit : ("true" : String).data = ['t', 'r', 'u', 'e'] := rfl

theorem data_false_lit : ("false" : String).data = ['f', 'a', 'l', 's', 'e'] := rfl

mutual

theorem parseVal_rt : ∀ (v : Json) (fuel : Nat) (rest : List Char),
    muJson v ≤ fuel → digStart rest = false →
    parseVal fuel (strJson v ++ rest) = some (v, rest)
  | .null, 0, _, hf, _ => by simp [muJson] at hf
  | .null, f + 1, rest, _, _ => by simp [strJson, parseVal, data_null_lit]
  | .bool true, 0, _, hf, _ => by simp [muJson] at hf
  | .bool true, f + 1, rest, _, _ => by simp [strJson, parseVal, data_true_lit]
  | .bool false, 0, _, hf, _ => by simp [muJson] at hf
  | .bool false, f + 1, rest, _, _ => by simp [strJson, parseVal, data_false_lit]
  | .num n, 0, _, hf, _ => by simp [muJson] at hf
  | .num n, f + 1, rest, _, hr => parseVal_num f n hr
  | .str s, 0, _, hf, _ => by simp [muJson] at hf
  | .str s, f + 1, rest, _, _ => by
    have h := parseStrBody_escStr s.data rest
    show parseVal (f + 1) ('"' :: (escStr s.data ++ ['"']) ++ rest) = some (.str s, rest)
    rw [List.cons_append, List.append_assoc]
    simp [parseVal, h, stringMk_data]
  | .arr .nil, 0, _, hf, _ => by simp [muJson] at hf
  | .arr .nil, f + 1, rest, _, _ => by
    show parseVal (f + 1) ('[' :: (strElems .nil ++ [']']) ++ rest) = some (.arr .nil, rest)
    simp [strElems, parseVal]
  | .arr (.cons x tl), 0, _, hf, _ => by simp [muJson, muList] at hf
  | .arr (.cons x tl), f + 1, rest, hf, _ => by
    have hmu : muList (.cons x tl) ≤ f := by simp [muJson] at hf; omega
    have hrec := parseElems_rt (.cons x tl) f rest (by simp) hmu
    obtain ⟨c, l, hcl, hc⟩ := strElems_head x tl
    have hne1 : (strElems (.cons x tl)).head? ≠ some ']' := by rw [hcl]; simp [hc]
    have hne2 : strElems (.cons x tl) ≠ [] := by rw [hcl]; simp
    show parseVal (f + 1) ('[' :: (strElems (.cons x tl) ++ [']']) ++ rest) =
      some (.arr (.cons x tl), rest)
    rw [List.cons_append, List.append_assoc]
    simp only [List.singleton_append]
    simp [parseVal, hne1, hne2, hrec]
  | .obj .nil, 0, _, hf, _ => by simp [muJson] at hf
  | .obj .nil, f + 1, rest, _, _ => by
    show parseVal (f + 1) ('{' :: (strFields .nil ++ ['}']) ++ rest) = some (.obj .nil, rest)
    simp [strFields, parseVal]
  | .obj (.cons k v tl), 0, _, hf, _ => by simp [muJson, muFields] at hf
  | .obj (.cons k v tl), f + 1, rest, hf, _ => by
    have hmu : muFields (.cons k v tl) ≤ f := by simp [muJson] at hf; omega
    have hrec := parseFields_rt (.cons k v tl) f rest (by simp) hmu
    obtain ⟨l, hl⟩ := strFields_head k v tl
    have hne1 : (strFields (.cons k v tl)).head? ≠ some '}' := by rw [hl]; simp
    have hne2 : strFields (.cons k v tl) ≠ [] := by rw [hl]; simp
    show parseVal (f + 1) ('{' :: (strFields (.cons k v tl) ++ ['}']) ++ rest) =
      some (.obj (.cons k v tl), rest)
    rw [List.cons_append, List.append_assoc]
    simp only [List.singleton_append]
    simp [parseVal, hne1, hne2, hrec]

theorem parseElems_rt : ∀ (xs : JsonList) (fuel : Nat) (rest : List Char),
    xs ≠ .nil → muList xs ≤ fuel →
    parseElems fuel (strElems xs ++ ']' :: rest) = some (xs, rest)
  | .nil, _, _, hne, _ => absurd rfl hne
  | .cons _ _, 0, _, _, hf => by simp [muList] at hf
  | .cons x .nil, f + 1, rest, _, hf => by
    have hmu : muJson x ≤ f := by simp [muList] at hf; omega
    have hv := parseVal_rt x f (']' :: rest) hmu (by simp [digStart])
    show parseElems (f + 1) (strJson x ++ ']' :: rest) = some (.cons x .nil, rest)
    simp [parseElems, hv]
  | .cons x (.cons y tl2), f + 1, rest, _, hf => by
    have hmu1 : muJson x ≤ f := by simp [muList] at hf; omega
    have hmu2 : muList (.cons y tl2) ≤ f := by simp [muList] at hf ⊢; omega
    have hv := parseVal_rt x f (',' :: (strElems (.cons y tl2) ++ ']' :: rest)) hmu1
      (by simp [digStart])
    have hrec := parseElems_rt (.cons y tl2) f rest (by simp) hmu2
    show parseElems (f + 1) ((strJson x ++ ',' :: strElems (.cons y tl2)) ++ ']' :: rest) =
      some (.cons x (.cons y tl2), rest)
    rw [List.append_assoc]
    simp only [List.cons_append]
    simp [parseElems, hv, hrec]

theorem parseFields_rt : ∀ (fs : JsonFields) (fuel : Nat) (rest : List Char),
    fs ≠ .nil → muFields fs ≤ fuel →
    parseFields fuel (strFields fs ++ '}' :: rest) = some (fs, rest)
  | .nil, _, _, hne, _ => absurd rfl hne
  | .cons _ _ _, 0, _, _, hf => by simp [muFields] at hf
  | .cons k v .nil, f + 1, rest, _, hf => by
    have hmu : muJson v ≤ f := by simp [muFields] at hf; omega
    have hs := parseStrBody_escStr k.data (':' :: (strJson v ++ '}' :: rest))
    have hv := parseVal_rt v f ('}' :: rest) hmu (by simp [digStart])
    show parseFields (f + 1)
        (('"' :: (escStr k.data ++ '"' :: ':' :: strJson v)) ++ '}' :: rest) =
      some (.cons k v .nil, rest)
    simp only [List.cons_append, List.append_assoc]
    simp [parseFields, hs, hv, stringMk_data]
  | .cons k v (.cons k2 v2 tl2), f + 1, rest, _, hf => by
    have hmu1 : muJson v ≤ f := by simp [muFields] at hf; omega
    have hmu2 : muFields (.cons k2 v2 tl2) ≤ f := by simp [muFields] at hf ⊢; omega
    have hs := parseStrBody_escStr k.data
      (':' :: (strJson v ++ ',' :: (strFields (.cons k2 v2 tl2) ++ '}' :: rest)))
    have hv := parseVal_rt v f (',' :: (strFields (.cons k2 v2 tl2) ++ '}' :: rest)) hmu1
      (by simp [digStart])
    have hrec := parseFields_rt (.cons k2 v2 tl2) f rest (by simp) hmu2
    show parseFields (f + 1)
        ((('"' :: (escStr k.data ++ '"' :: ':' :: strJson v)) ++
          ',' :: strFields (.cons k2 v2 tl2)) ++ '}' :: rest) =
      some (.cons k v (.cons k2 v2 tl2), rest)
    simp only [List.cons_append, List.append_assoc]
    simp [parseFields, hs, hv, hrec, stringMk_data]

end

theorem intChars_length_pos (n : Int) : 1 ≤ (intChars n).length := by
  by_cases hneg : n < 0
  · simp [intChars, hneg]
  · obtain ⟨c, l, hcl, _⟩ := natChars_cons n.toNat
    simp [intChars, hneg, hcl]

mutual

theorem muJson_le_length : ∀ v : Json, muJson v ≤ (strJson v).length
  | .null => by simp [muJson, strJson, data_null_lit]
  | .bool true => by simp [muJson, strJson, data_true_lit]
  | .bool false => by simp [muJson, strJson, data_false_lit]
  | .num n => by simpa [muJson, strJson] using intChars_length_pos n
  | .str s => by simp [muJson, strJson]
  | .arr xs => by
    have h := muList_le_length xs
    simp [muJson, strJson]
    omega
  | .obj fs => by
    have h := muFields_le_length fs
    simp [muJson, strJson]
    omega

theorem muList_le_length : ∀ xs : JsonList, muList xs ≤ (strElems xs).length + 1
  | .nil => by simp [muList]
  | .cons x .nil => by
    have h := muJson_le_length x
    simp [muList, strElems]
    omega
  | .cons x (.cons y tl2) => by
    have h1 := muJson_le_length x
    have h2 := muList_le_length (.cons y tl2)
    simp [muList, strElems] at h2 ⊢
    omega

theorem muFields_le_length : ∀ fs : JsonFields, muFields fs ≤ (strFields fs).length + 1
  | .nil => by simp [muFields]
  | .cons k v .nil => by
    have h := muJson_le_length v
    simp [muFields, strFields]
    omega
  | .cons k v (.cons k2 v2 tl2) => by
    have h1 := muJson_le_length v
    have h2 := muFields_le_length (.cons k2 v2 tl2)
    simp [muFields, strFields] at h2 ⊢
    omega

end

theorem jstringify_data (v : Json) : (jstringify v).data = strJson v := rfl

theorem jstringify_length (v : Json) : (jstringify v).length = (strJson v).length := rfl

/-- `JSON.parse` inverts `JSON.stringify`: the encode/decode round-trip
both adapters rely on for metadata values. -/
theorem jparse_jstringify (v : Json) : jparse (jstringify v) = some v := by
  have h3 : parseVal ((strJson v).length + 1) (strJson v) = some (v, []) := by
    have h := parseVal_rt v ((strJson v).length + 1) []
      (le_trans (muJson_le_length v) (by omega)) rfl
    simpa using h
  simp [jparse, jstringify_data, jstringify_length, h3]

theorem jparseOr_jstringify (v : Json) : jparseOr (jstringify v) = v := by
  simp [jparseOr, jparse_jstringify]

theorem jstringify_ne_empty (v : Json) : jstringify v ≠ "" := by
  intro h
  have h1 : (jstringify v).length = 0 := by rw [h]; rfl
  rw [jstringify_length] at h1
  have h2 := muJson_le_length v
  have h3 : 1 ≤ muJson v := by cases v <;> simp [muJson]
  omega

/-- First-match lookup in an association list (JS object / Redis hash /
SQL row read). -/
def alget {α : Type} : List (String × α) → String → Option α
  | [], _ => none
  | (k, v) :: tl, key => if k = key then some v else alget tl key

/-- Set a key in an association list: replace the first occurrence in
place, or append (JS object assignment / Redis `hSet`). -/
def alset {α : Type} : List (String × α) → String → α → List (String × α)
  | [], key, v => [(key, v)]
  | (k, w) :: tl, key, v =>
    if k = key then (key, v) :: tl else (k, w) :: alset tl key v

/-- A Redis hash: field name to stored string. -/
abbrev RedisHash : Type := List (String × String)

/-- The Redis keyspace: key to hash. -/
abbrev RedisStore : Type := List (String × RedisHash)

/-- Model of `storeImage` in `redis.server.ts`: under key
`image:imageId`, `hSet` the `data` field when `imageData` is truthy
(non-null, non-empty), then `hSet` every metadata entry
`JSON.stringify`-ed. The `expire` call does not change the hash
contents and is not modelled. -/
def redisStoreImage (s : RedisStore) (imageId : String) (imageData : Option String)
    (metadata : List (String × Json)) : RedisStore :=
  let imageKey := "image:" ++ imageId
  let h0 := (alget s imageKey).getD []
  let h1 := match imageData with
    | some d => if d = "" then h0 else alset h0 "data" d
    | none => h0
  let h2 := metadata.foldl (fun acc kv => alset acc kv.1 (jstringify kv.2)) h1
  alset s imageKey h2

/-- Model of `getImage` in `redis.server.ts`: `hGetAll`, `null` when the
hash is absent or empty, otherwise every field except `data` is
`JSON.parse`-d with a fall-back to the raw string. -/
def redisGetImage (s : RedisStore) (imageId : String) : Option (List (String × Json)) :=
  match alget s ("image:" ++ imageId) with
  | none => none
  | some h =>
    if h = [] then none
    else some (h.map (fun kv =>
      (kv.1, if kv.1 = "data" then Json.str kv.2 else jparseOr kv.2)))

/-- Model of `getImageField` in `redis.server.ts`: `hGet` one field,
`null` when the value is falsy (absent or the empty string), otherwise
`JSON.parse` with a fall-back to the raw string. The JS `null` return is
modelled as `Json.null`. -/
def redisGetImageField (s : RedisStore) (imageId field : String) : Json :=
  match alget s ("image:" ++ imageId) with
  | none => Json.null
  | some h =>
    match alget h field with
    | none => Json.null
    | some v => if v = "" then Json.null else jparseOr v

/-- Model of `deleteImage` in `redis.server.ts`: `del` the key. -/
def redisDeleteImage (s : RedisStore) (imageId : String) : RedisStore :=
  s.filter (fun kv => kv.1 != "image:" ++ imageId)

/-- One row of the `images` table (`sqlite.server.ts`); `none` is SQL
`NULL`. -/
structure SqlRow where
  data : Option Json
  status : Option Json
  fileName : Option Json
  timestamp : Option Json

/-- The SQLite database: the `images` table keyed by `id`, and the
`metadata` table as (imageId, key, value) rows. -/
structure SqlState where
  images : List (String × SqlRow)
  meta : List (String × String × String)

/-- The value bound for a direct column on the success path of
`storeImage`: an explicitly supplied JSON `null` binds SQL `NULL` (so
`COALESCE` retains the old column), any other supplied value binds
itself. An absent key (JS `undefined`) does not bind at all —
better-sqlite3 throws a `TypeError` — so this function is only the
faithful binding when the key is present and bindable; that guard is
`directBindsOk`, enforced by `sqliteStoreImageChecked`. -/
def directParam (md : List (String × Json)) (key : String) : Option Json :=
  match alget md key with
  | some Json.null => none
  | x => x

/-- Model of the success path of `storeImage` in `sqlite.server.ts`:
destructure `status`, `fileName`, `timestamp` out of the metadata;
`UPDATE` with `COALESCE(new, old)` plus `DELETE` of all old metadata
rows when the row exists, plain `INSERT` otherwise; insert remaining
metadata entries `JSON.stringify`-ed. This is the behaviour when the
three destructured values bind (see `sqliteStoreImageChecked` for the
driver's binding strictness); the repository's continuation always
supplies all three as strings and so stays in this region. -/
def sqliteStoreImage (s : SqlState) (imageId : String) (imageData : Option String)
    (metadata : List (String × Json)) : SqlState :=
  let status := directParam metadata "status"
  let fileName := directParam metadata "fileName"
  let timestamp := directParam metadata "timestamp"
  let other := metadata.filter (fun kv =>
    !(kv.1 == "status" || kv.1 == "fileName" || kv.1 == "timestamp"))
  let newMeta := other.map (fun kv => (imageId, kv.1, jstringify kv.2))
  match alget s.images imageId with
  | some row =>
    let row' : SqlRow :=
      { data := match imageData with
          | some d => some (Json.str d)
          | none => row.data
        status := match status with
          | some v => some v
          | none => row.status
        fileName := match fileName with
          | some v => some v
          | none => row.fileName
        timestamp := match timestamp with
          | some v => some v
          | none => row.timestamp }
    { images := alset s.images imageId row'
      meta := (s.meta.filter (fun r => r.1 != imageId)) ++ newMeta }
  | none =>
    { images := s.images ++ [(imageId,
        { data := imageData.map Json.str
          status := status
          fileName := fileName
          timestamp := timestamp })]
      meta := s.meta ++ newMeta }

/-- Can a JSON value be bound as an SQL parameter by better-sqlite3?
The driver binds only numbers, strings, bigints, buffers and `null`;
booleans, arrays and objects (and JS `undefined`) make `.run` throw a
`TypeError`. -/
def sqlBindable : Json → Bool
  | .null => true
  | .num _ => true
  | .str _ => true
  | _ => false

/-- Do the three destructured direct fields of a metadata map bind
without throwing? An absent key destructures to JS `undefined`, which
better-sqlite3 refuses to bind. -/
def directBindsOk (md : List (String × Json)) : Bool :=
  (match alget md "status" with
   | some v => sqlBindable v
   | none => false) &&
  (match alget md "fileName" with
   | some v => sqlBindable v
   | none => false) &&
  (match alget md "timestamp" with
   | some v => sqlBindable v
   | none => false)

/-- Model of `storeImage` in `sqlite.server.ts` including the driver's
binding strictness: when any of the destructured `status`, `fileName`,
`timestamp` values is JS `undefined` (key absent) or not bindable
(boolean/array/object), better-sqlite3's `.run` throws a `TypeError`,
the transaction is rolled back, and the error propagates to the caller
(`none`); otherwise the store succeeds as `sqliteStoreImage`. -/
def sqliteStoreImageChecked (s : SqlState) (imageId : String) (imageData : Option String)
    (metadata : List (String × Json)) : Option SqlState :=
  if directBindsOk metadata then some (sqliteStoreImage s imageId imageData metadata)
  else none

/-- Model of `getImage` in `sqlite.server.ts`: `null` when the row is
absent, otherwise the four direct columns followed by the metadata rows
assigned on top (`result[key] = parsed`). -/
def sqliteGetImage (s : SqlState) (imageId : String) : Option (List (String × Json)) :=
  match alget s.images imageId with
  | none => none
  | some row =>
    let base : List (String × Json) := [
      ("data", row.data.getD Json.null),
      ("status", row.status.getD Json.null),
      ("fileName", row.fileName.getD Json.null),
      ("timestamp", row.timestamp.getD Json.null)]
    some ((s.meta.filter (fun r => r.1 == imageId)).foldl
      (fun acc r => alset acc r.2.1 (jparseOr r.2.2)) base)

/-- Model of `getImageField` in `sqlite.server.ts`: direct columns are
read raw from the row (`null` when the row is absent or the column is
`NULL`); other fields are looked up in the metadata table and
`JSON.parse`-d with a fall-back to the raw string. -/
def sqliteGetImageField (s : SqlState) (imageId field : String) : Json :=
  if field == "data" || field == "status" || field == "fileName" || field == "timestamp" then
    match alget s.images imageId with
    | none => Json.null
    | some row =>
      (if field == "data" then row.data
       else if field == "status" then row.status
       else if field == "fileName" then row.fileName
       else row.timestamp).getD Json.null
  else
    match (s.meta.filter (fun r => r.1 == imageId && r.2.1 == field)).head? with
    | none => Json.null
    | some r => jparseOr r.2.2

/-- Model of `deleteImage` in `sqlite.server.ts`: delete the metadata
rows and the image row. -/
def sqliteDeleteImage (s : SqlState) (imageId : String) : SqlState :=
  { images := s.images.filter (fun kv => kv.1 != imageId)
    meta := s.meta.filter (fun r => r.1 != imageId) }

/-- JS truthiness of a JSON value. -/
def jsTruthy : Json → Bool
  | .null => false
  | .bool b => b
  | .num n => n != 0
  | .str s => s != ""
  | .arr _ => true
  | .obj _ => true

/-- JS strict equality of a JSON value against a string literal
(`value === "..."`). -/
def jsStrEq (j : Json) (s : String) : Bool :=
  match j with
  | .str t => t == s
  | _ => false

/-- Specification-side projection `get(id)[field]`, with `null` when the
record or the field is absent (used to state the `getField` refinement
claim). -/
def jsProj (record : Option (List (String × Json))) (field : String) : Json :=
  match record with
  | none => Json.null
  | some rec => (alget rec field).getD Json.null

/-- Responses of the status loader (`image.$imageId.status.ts`). -/
inductive StatusResp where
  | notFound : StatusResp
  | payload : Json → Option Json → StatusResp

/-- The pure response logic of the status loader applied to the fetched
`status` and `errorMessage` field values: 404 when `status === null`;
when `status === "error"` include `errorMessage || "Unknown error
occurred"`. -/
def statusRespOf (st em : Json) : StatusResp :=
  match st with
  | .null => .notFound
  | st =>
    if jsStrEq st "error" then
      .payload st (some (if jsTruthy em then em else .str "Unknown error occurred"))
    else .payload st none

/-- Model of the loader in `image.$imageId.status.ts`, which reads the
`status` (and on error the `errorMessage`) field via the SQLite
adapter's `getImageField`. -/
def statusLoader (s : SqlState) (imageId : String) : StatusResp :=
  statusRespOf (sqliteGetImageField s imageId "status")
    (sqliteGetImageField s imageId "errorMessage")

/-- The content type served by the loader in `image.$imageId.ts`:
`imageData.fileType || "image/jpeg"`. -/
def loaderContentType (record : List (String × Json)) : Json :=
  match alget record "fileType" with
  | none => Json.str "image/jpeg"
  | some v => if jsTruthy v then v else Json.str "image/jpeg"

/-- Model of `generateImageWithGptResponse` in `chatgpt.ts`. The external
call is a parameter: `Except.error` is a thrown API error, `Except.ok
none` a response with no `image_generation_call` output (the function
then returns the empty string), `Except.ok (some b)` a response with
image data `b`. -/
def generateImageWithGptResponse (apiResult : Except String (Option String)) :
    Except String String :=
  match apiResult with
  | .error e => .error e
  | .ok none => .ok ""
  | .ok (some b) => .ok b

/-- Model of `generateImageWithGptImage` in `chatgpt.ts`: a thrown API
error, or a missing `b64_json`, is re-thrown as `API error: ...`. -/
def generateImageWithGptImage (apiResult : Except String String) : Except String String :=
  match apiResult with
  | .error e => .error ("API error: " ++ e)
  | .ok b =>
    if b == "" then .error ("API error: " ++ "No image data received from GPT Image API")
    else .ok b

/-- The successful result object of `processImageAndPrompt`. -/
structure GenSuccess where
  image : String

/-- Model of `processImageAndPrompt` in `chatgpt.ts`: `null` when the
`OPENAI_API_KEY` configuration is absent; otherwise it runs
`generateImageWithGptResponse` and returns the image as a data URL on
success, and `null` (from the catch block) when the call throws. -/
def processImageAndPrompt (apiKey : Option String)
    (apiResult : Except String (Option String)) : Option GenSuccess :=
  match apiKey with
  | none => none
  | some _ =>
    match generateImageWithGptResponse apiResult with
    | .ok b => some { image := "data:image/png;base64," ++ b }
    | .error _ => none

/-- The response shape the orchestrator in the upload route destructures:
a possible `error` message and a possible `image` data URL. -/
structure GenResponse where
  error : Option String
  image : Option String

/-- `response.image.split(";base64,").pop()`. -/
def extractBase64 (s : String) : String := (s.splitOn ";base64,").getLastD ""

/-- The completion path of `processAndStoreImage`: store the extracted
base64 with `status: "completed"`; accessing `response.image` when it is
absent is a thrown `TypeError`, modelled as `none`. -/
def completedStep (s : SqlState) (imageId fileName timestamp : String)
    (r : GenResponse) : Option SqlState :=
  match r.image with
  | none => none
  | some img =>
    some (sqliteStoreImage s imageId (some (extractBase64 img))
      [("fileName", .str fileName), ("timestamp", .str timestamp),
       ("status", .str "completed")])

/-- Model of `processAndStoreImage` in the upload route: on a `null`
client response it returns without writing; on a truthy `error` it
stores `status: "error"` with the message and empty data; otherwise it
stores the completed image. `none` models an uncaught throw. -/
def processAndStoreImage (s : SqlState) (imageId fileName timestamp : String)
    (resp : Option GenResponse) : Option SqlState :=
  match resp with
  | none => some s
  | some r =>
    match r.error with
    | some e =>
      if e == "" then completedStep s imageId fileName timestamp r
      else
        some (sqliteStoreImage s imageId (some "")
          [("fileName", .str fileName), ("timestamp", .str timestamp),
           ("status", .str "error"), ("errorMessage", .str e)])
    | none => completedStep s imageId fileName timestamp r

/-- The crop and draw geometry computed by `convertToPng` in
`helpers.ts`. -/
structure PngConversion where
  canvasWidth : ℚ
  canvasHeight : ℚ
  sourceX : ℚ
  sourceY : ℚ
  sourceWidth : ℚ
  sourceHeight : ℚ
  destX : ℚ
  destY : ℚ
  destWidth : ℚ
  destHeight : ℚ

/-- Model of the geometry of `convertToPng`: a 1024×1024 canvas; when the
image is not square, a centred square crop (sides for landscape, top and
bottom for portrait); the draw covers the whole canvas. -/
def convertToPng (width height : ℚ) : PngConversion :=
  let crop :=
    if width ≠ height then
      if width > height then ((width - height) / 2, (0 : ℚ), height, height)
      else ((0 : ℚ), (height - width) / 2, width, width)
    else ((0 : ℚ), (0 : ℚ), width, height)
  { canvasWidth := 1024
    canvasHeight := 1024
    sourceX := crop.1
    sourceY := crop.2.1
    sourceWidth := crop.2.2.1
    sourceHeight := crop.2.2.2
    destX := 0
    destY := 0
    destWidth := 1024
    destHeight := 1024 }

/-- Model of `handleMouseMove` in the `ImageFlipper` widget: the new
divider position `Math.max(0, Math.min(100, (x / rect.width) * 100))`
with `x = clientX - rect.left`. -/
def handleMouseMove (clientX left width : ℚ) : ℚ :=
  max 0 (min 100 ((clientX - left) / width * 100))

/-- Model of `handleTouchMove` in the `ImageFlipper` widget: identical
computation applied to `touches[0].clientX`. -/
def handleTouchMove (clientX left width : ℚ) : ℚ :=
  max 0 (min 100 ((clientX - left) / width * 100))

theorem alget_alset_self {α : Type} (l : List (String × α)) (k : String) (v : α) :
    alget (alset l k v) k = some v := by
  induction l with
  | nil => simp [alset, alget]
  | cons kv tl ih =>
    obtain ⟨k1, w⟩ := kv
    by_cases h : k1 = k
    · simp [alset, h, alget]
    · simp [alset, h, alget, ih]

theorem alget_alset_ne {α : Type} (l : List (String × α)) {k key : String} (v : α)
    (h : key ≠ k) : alget (alset l k v) key = alget l key := by
  induction l with
  | nil => simp [alset, alget, Ne.symm h]
  | cons kv tl ih =>
    obtain ⟨k1, w⟩ := kv
    by_cases h1 : k1 = k
    · subst h1
      simp [alset, alget, Ne.symm h]
    · by_cases h2 : k1 = key
      · simp [alset, h1, alget, h2, h]
      · simp [alset, h1, alget, h2, ih]

theorem alset_ne_nil {α : Type} (l : List (String × α)) (k : String) (v : α) :
    alset l k v ≠ [] := by
  cases l with
  | nil => simp [alset]
  | cons kv tl =>
    obtain ⟨k1, w⟩ := kv
    by_cases h : k1 = k <;> simp [alset, h]

theorem alget_append_of_none {α : Type} {l1 : List (String × α)} (l2 : List (String × α))
    {k : String} (h : alget l1 k = none) : alget (l1 ++ l2) k = alget l2 k := by
  induction l1 with
  | nil => simp
  | cons kv tl ih =>
    obtain ⟨k1, w⟩ := kv
    by_cases h1 : k1 = k
    · simp [alget, h1] at h
    · simp [alget, h1] at h ⊢
      exact ih h

theorem alget_append_of_some {α : Type} {l1 : List (String × α)} (l2 : List (String × α))
    {k : String} {v : α} (h : alget l1 k = some v) : alget (l1 ++ l2) k = some v := by
  induction l1 with
  | nil => simp [alget] at h
  | cons kv tl ih =>
    obtain ⟨k1, w⟩ := kv
    by_cases h1 : k1 = k
    · simp [alget, h1] at h ⊢
      exact h
    · simp [alget, h1] at h ⊢
      exact ih h

theorem alget_map {α β : Type} (g : String → α → β) (l : List (String × α)) (k : String) :
    alget (l.map (fun kv => (kv.1, g kv.1 kv.2))) k = (alget l k).map (g k) := by
  induction l with
  | nil => simp [alget]
  | cons kv tl ih =>
    obtain ⟨k1, w⟩ := kv
    by_cases h : k1 = k
    · subst h
      simp [alget]
    · simp [alget, h, ih]

theorem alget_foldl_alset_of_ne {α γ : Type} (key : γ → String) (val : γ → α)
    (items : List γ) (l : List (String × α)) (k : String)
    (h : ∀ it ∈ items, key it ≠ k) :
    alget (items.foldl (fun acc it => alset acc (key it) (val it)) l) k = alget l k := by
  induction items generalizing l with
  | nil => rfl
  | cons it tl ih =>
    simp only [List.foldl_cons]
    rw [ih _ (fun x hx => h x (List.mem_cons_of_mem _ hx))]
    exact alget_alset_ne l _ (Ne.symm (h it (List.mem_cons_self _ _)))

theorem alget_foldl_alset_of_mem {α γ : Type} (key : γ → String) (val : γ → α)
    (items : List γ) (l : List (String × α)) (it0 : γ)
    (hmem : it0 ∈ items) (hnd : (items.map key).Nodup) :
    alget (items.foldl (fun acc it => alset acc (key it) (val it)) l) (key it0) =
      some (val it0) := by
  induction items generalizing l with
  | nil => simp at hmem
  | cons it tl ih =>
    simp only [List.map_cons, List.nodup_cons] at hnd
    obtain ⟨hnotin, hnd2⟩ := hnd
    simp only [List.foldl_cons]
    rcases List.mem_cons.mp hmem with h0 | h0
    · subst h0
      rw [alget_foldl_alset_of_ne]
      · exact alget_alset_self l _ _
      · intro x hx hkx
        exact hnotin (hkx ▸ List.mem_map_of_mem key hx)
    · exact ih _ h0 hnd2

theorem alget_of_mem_nodup {α : Type} {l : List (String × α)} {k : String} {v : α}
    (hmem : (k, v) ∈ l) (hnd : (l.map Prod.fst).Nodup) : alget l k = some v := by
  induction l with
  | nil => simp at hmem
  | cons kv tl ih =>
    obtain ⟨k1, w⟩ := kv
    simp only [List.map_cons, List.nodup_cons] at hnd
    obtain ⟨hnotin, hnd2⟩ := hnd
    rcases List.mem_cons.mp hmem with h0 | h0
    · obtain ⟨h1, h2⟩ := Prod.mk.injEq .. ▸ h0
      · simp only [Prod.mk.injEq] at h0
        simp [alget, h0.1, h0.2]
    · have hne : k1 ≠ k := by
        intro h
        subst h
        exact hnotin (List.mem_map_of_mem Prod.fst h0)
      simp [alget, hne]
      exact ih h0 hnd2

theorem foldl_alset_ne_nil {α γ : Type} (key : γ → String) (val : γ → α)
    (items : List γ) (l : List (String × α)) (h : l ≠ []) :
    items.foldl (fun acc it => alset acc (key it) (val it)) l ≠ [] := by
  induction items generalizing l with
  | nil => exact h
  | cons it tl ih =>
    simp only [List.foldl_cons]
    exact ih _ (alset_ne_nil l _ _)

/-- Redis adapter round-trip: after `storeImage` with non-empty data and
a metadata map that does not use the reserved key `data`, `getImage`
returns a record whose `data` field is the raw stored string and whose
metadata entries decode back to the stored values. -/
theorem redis_roundtrip (s : RedisStore) (id d : String) (md : List (String × Json))
    (hd : d ≠ "") (hnd : (md.map Prod.fst).Nodup) (hdata : ∀ kv ∈ md, kv.1 ≠ "data") :
    ∃ rec, redisGetImage (redisStoreImage s id (some d) md) id = some rec ∧
      alget rec "data" = some (.str d) ∧
      ∀ kv ∈ md, alget rec kv.1 = some kv.2 := by
  have hkey : alget (redisStoreImage s id (some d) md) ("image:" ++ id) =
      some (md.foldl (fun acc kv => alset acc kv.1 (jstringify kv.2))
        (alset ((alget s ("image:" ++ id)).getD []) "data" d)) := by
    simp [redisStoreImage, hd, alget_alset_self]
  set h1 := alset ((alget s ("image:" ++ id)).getD []) "data" d with hh1
  set h2 := md.foldl (fun acc kv => alset acc kv.1 (jstringify kv.2)) h1 with hh2
  have hne : h2 ≠ [] := by
    rw [hh2]
    exact foldl_alset_ne_nil (fun kv => kv.1) (fun kv => jstringify kv.2) md h1
      (alset_ne_nil _ _ _)
  have hdataF : alget h2 "data" = some d := by
    rw [hh2]
    rw [alget_foldl_alset_of_ne (fun kv => kv.1) (fun kv => jstringify kv.2) md h1 "data"
      hdata]
    exact alget_alset_self _ _ _
  refine ⟨h2.map (fun kv => (kv.1, if kv.1 = "data" then Json.str kv.2 else jparseOr kv.2)),
    ?_, ?_, ?_⟩
  · simp [redisGetImage, hkey, hne]
  · rw [alget_map (fun k v => if k = "data" then Json.str v else jparseOr v) h2 "data",
      hdataF]
    simp
  · intro kv hkv
    have hne2 : kv.1 ≠ "data" := hdata kv hkv
    have hfield : alget h2 kv.1 = some (jstringify kv.2) := by
      rw [hh2]
      exact alget_foldl_alset_of_mem (fun kv => kv.1) (fun kv => jstringify kv.2) md h1 kv
        hkv hnd
    rw [alget_map (fun k v => if k = "data" then Json.str v else jparseOr v) h2 kv.1,
      hfield]
    simp [hne2, jparseOr_jstringify]

theorem filter_newMeta_self (id : String) (l : List (String × Json)) :
    (l.map (fun kv => (id, kv.1, jstringify kv.2))).filter (fun r => r.1 == id) =
      l.map (fun kv => (id, kv.1, jstringify kv.2)) := by
  rw [List.filter_eq_self]
  intro a ha
  obtain ⟨kv, _, rfl⟩ := List.mem_map.mp ha
  simp

theorem directParam_getD {md : List (String × Json)} {k : String} {v : Json}
    (hmem : (k, v) ∈ md) (hnd : (md.map Prod.fst).Nodup) :
    (directParam md k).getD Json.null = v := by
  have h := alget_of_mem_nodup hmem hnd
  cases v <;> simp [directParam, h]

/-- SQLite adapter round-trip: after a fresh `storeImage` with a metadata
map that does not use the reserved key `data`, `getImage` returns a
record whose `data` field is the stored string and whose metadata
entries (direct columns and metadata-table rows alike) decode back to
the stored values. -/
theorem sqlite_roundtrip (s : SqlState) (id d : String) (md : List (String × Json))
    (hfresh : alget s.images id = none)
    (hmeta : s.meta.filter (fun r => r.1 == id) = [])
    (hnd : (md.map Prod.fst).Nodup) (hdata : ∀ kv ∈ md, kv.1 ≠ "data") :
    ∃ rec, sqliteGetImage (sqliteStoreImage s id (some d) md) id = some rec ∧
      alget rec "data" = some (.str d) ∧
      ∀ kv ∈ md, alget rec kv.1 = some kv.2 := by
  have himg : alget (sqliteStoreImage s id (some d) md).images id =
      some { data := some (.str d)
             status := directParam md "status"
             fileName := directParam md "fileName"
             timestamp := directParam md "timestamp" } := by
    simp only [sqliteStoreImage, hfresh]
    rw [alget_append_of_none _ hfresh]
    simp [alget]
  have hmeta' : (sqliteStoreImage s id (some d) md).meta.filter (fun r => r.1 == id) =
      (md.filter (fun kv =>
        !(kv.1 == "status" || kv.1 == "fileName" || kv.1 == "timestamp"))).map
        (fun kv => (id, kv.1, jstringify kv.2)) := by
    simp only [sqliteStoreImage, hfresh]
    rw [List.filter_append, hmeta, filter_newMeta_self]
    simp
  set other := md.filter (fun kv =>
    !(kv.1 == "status" || kv.1 == "fileName" || kv.1 == "timestamp")) with hother
  set newMeta := other.map (fun kv => (id, kv.1, jstringify kv.2)) with hnm
  set base : List (String × Json) := [
    ("data", Json.str d),
    ("status", (directParam md "status").getD Json.null),
    ("fileName", (directParam md "fileName").getD Json.null),
    ("timestamp", (directParam md "timestamp").getD Json.null)] with hbase
  have hget : sqliteGetImage (sqliteStoreImage s id (some d) md) id =
      some (newMeta.foldl (fun acc r => alset acc r.2.1 (jparseOr r.2.2)) base) := by
    simp only [sqliteGetImage, himg, hmeta']
    simp [hbase]
  have hkeysOther : ∀ kv ∈ other, kv.1 ≠ "data" := by
    intro kv hkv
    exact hdata kv (List.mem_of_mem_filter hkv)
  have hndOther : (other.map Prod.fst).Nodup := by
    exact List.Nodup.sublist (List.Sublist.map Prod.fst (List.filter_sublist md)) hnd
  refine ⟨newMeta.foldl (fun acc r => alset acc r.2.1 (jparseOr r.2.2)) base, hget, ?_, ?_⟩
  · rw [alget_foldl_alset_of_ne (fun r => r.2.1) (fun r => jparseOr r.2.2) newMeta base
      "data" ?_]
    · simp [hbase, alget]
    · intro r hr
      obtain ⟨kv, hkv, rfl⟩ := List.mem_map.mp hr
      exact hkeysOther kv hkv
  · intro kv hkv
    by_cases h1 : kv.1 = "status"
    · rw [alget_foldl_alset_of_ne (fun r => r.2.1) (fun r => jparseOr r.2.2) newMeta base
        kv.1 ?_]
      · rw [h1]
        simp only [hbase, alget]
        have : ("status", kv.2) ∈ md := by rw [← h1]; exact hkv
        simp [directParam_getD this hnd]
      · intro r hr
        obtain ⟨kv2, hkv2, rfl⟩ := List.mem_map.mp hr
        have := List.mem_filter.mp hkv2
        simp only [Bool.not_eq_true', Bool.or_eq_false_iff, beq_eq_false_iff_ne] at this
        rw [h1]
        exact this.2.1.1
    · by_cases h2 : kv.1 = "fileName"
      · rw [alget_foldl_alset_of_ne (fun r => r.2.1) (fun r => jparseOr r.2.2) newMeta base
          kv.1 ?_]
        · rw [h2]
          simp only [hbase, alget]
          have : ("fileName", kv.2) ∈ md := by rw [← h2]; exact hkv
          simp [directParam_getD this hnd]
        · intro r hr
          obtain ⟨kv2, hkv2, rfl⟩ := List.mem_map.mp hr
          have := List.mem_filter.mp hkv2
          simp only [Bool.not_eq_true', Bool.or_eq_false_iff, beq_eq_false_iff_ne] at this
          rw [h2]
          exact this.2.1.2
      · by_cases h3 : kv.1 = "timestamp"
        · rw [alget_foldl_alset_of_ne (fun r => r.2.1) (fun r => jparseOr r.2.2) newMeta
            base kv.1 ?_]
          · rw [h3]
            simp only [hbase, alget]
            have : ("timestamp", kv.2) ∈ md := by rw [← h3]; exact hkv
            simp [directParam_getD this hnd]
          · intro r hr
            obtain ⟨kv2, hkv2, rfl⟩ := List.mem_map.mp hr
            have := List.mem_filter.mp hkv2
            simp only [Bool.not_eq_true', Bool.or_eq_false_iff, beq_eq_false_iff_ne] at this
            rw [h3]
            exact this.2.2
        · have hmemOther : kv ∈ other := by
            rw [hother]
            refine List.mem_filter.mpr ⟨hkv, ?_⟩
            simp [h1, h2, h3]
          have hmemNew : (id, kv.1, jstringify kv.2) ∈ newMeta := by
            rw [hnm]
            exact List.mem_map_of_mem _ hmemOther
          have hndNew : (newMeta.map (fun r => r.2.1)).Nodup := by
            rw [hnm, List.map_map]
            exact hndOther
          have := alget_foldl_alset_of_mem (fun r => r.2.1) (fun r => jparseOr r.2.2)
            newMeta base (id, kv.1, jstringify kv.2) hmemNew hndNew
          simpa [jparseOr_jstringify] using this

/-- C1 is refuted as stated: with the metadata map containing the key
`data` (any metadata map is allowed by the claim), the Redis adapter's
single hash conflates the metadata entry with the data field. Storing
data `"abc"` with metadata `data: 1` yields a record whose `data` field
is the string `"1"`: it equals neither the stored data `"abc"` nor the
structured metadata value `1`. -/
theorem C1_counterexample :
    redisGetImage (redisStoreImage [] "img1" (some "abc") [("data", Json.num 1)]) "img1" =
      some [("data", Json.str "1")] ∧
    Json.str "1" ≠ Json.str "abc" ∧ Json.str "1" ≠ Json.num 1 := by
  refine ⟨rfl, by simp, by simp⟩

/-- C1 (amended): for every identifier, every non-empty string data, and
every metadata map that has distinct keys, does not use the reserved key
`data`, and supplies bindable `status`, `fileName` and `timestamp`
values (on absent or non-scalar ones the SQLite driver throws a
`TypeError` instead of storing), a fresh `storeImage` followed by
`getImage` returns a record whose `data` field equals the stored data
and whose every metadata entry equals the stored value after decode, in
both the Redis-backed and the SQLite-backed adapter. -/
theorem C1_store_get_roundtrip
    (rs : RedisStore) (ss : SqlState) (id d : String) (md : List (String × Json))
    (hd : d ≠ "")
    (hnd : (md.map Prod.fst).Nodup)
    (hdata : ∀ kv ∈ md, kv.1 ≠ "data")
    (hbind : directBindsOk md = true)
    (hfresh : alget ss.images id = none)
    (hmeta : ss.meta.filter (fun r => r.1 == id) = []) :
    (∃ rec, redisGetImage (redisStoreImage rs id (some d) md) id = some rec ∧
      alget rec "data" = some (.str d) ∧ ∀ kv ∈ md, alget rec kv.1 = some kv.2) ∧
    (∃ s2 rec, sqliteStoreImageChecked ss id (some d) md = some s2 ∧
      sqliteGetImage s2 id = some rec ∧
      alget rec "data" = some (.str d) ∧ ∀ kv ∈ md, alget rec kv.1 = some kv.2) := by
  refine ⟨redis_roundtrip rs id d md hd hnd hdata, ?_⟩
  obtain ⟨rec, h1, h2, h3⟩ := sqlite_roundtrip ss id d md hfresh hmeta hnd hdata
  exact ⟨sqliteStoreImage ss id (some d) md, rec,
    by simp [sqliteStoreImageChecked, hbind], h1, h2, h3⟩

/-- Witness for the amended C1 at a concrete input supplying all three
direct fields. -/
theorem C1_store_get_roundtrip_witness :
    ("abc" ≠ "") ∧
    (([("status", Json.str "pending"), ("fileName", Json.str "f.png"),
      ("timestamp", Json.str "t1"), ("extra", Json.obj (.cons "a" (.num 1) .nil))].map
      Prod.fst).Nodup) ∧
    directBindsOk [("status", Json.str "pending"), ("fileName", Json.str "f.png"),
      ("timestamp", Json.str "t1"), ("extra", Json.obj (.cons "a" (.num 1) .nil))] = true ∧
    ((∃ rec, redisGetImage (redisStoreImage [] "img1" (some "abc")
        [("status", Json.str "pending"), ("fileName", Json.str "f.png"),
         ("timestamp", Json.str "t1"), ("extra", Json.obj (.cons "a" (.num 1) .nil))])
        "img1" = some rec ∧
      alget rec "data" = some (.str "abc") ∧
      ∀ kv ∈ [("status", Json.str "pending"), ("fileName", Json.str "f.png"),
        ("timestamp", Json.str "t1"), ("extra", Json.obj (.cons "a" (.num 1) .nil))],
        alget rec kv.1 = some kv.2) ∧
    (∃ s2 rec, sqliteStoreImageChecked ⟨[], []⟩ "img1" (some "abc")
        [("status", Json.str "pending"), ("fileName", Json.str "f.png"),
         ("timestamp", Json.str "t1"), ("extra", Json.obj (.cons "a" (.num 1) .nil))] =
        some s2 ∧
      sqliteGetImage s2 "img1" = some rec ∧
      alget rec "data" = some (.str "abc") ∧
      ∀ kv ∈ [("status", Json.str "pending"), ("fileName", Json.str "f.png"),
        ("timestamp", Json.str "t1"), ("extra", Json.obj (.cons "a" (.num 1) .nil))],
        alget rec kv.1 = some kv.2)) :=
  ⟨by decide, by simp, by decide,
   C1_store_get_roundtrip [] ⟨[], []⟩ "img1" "abc" _ (by decide) (by simp)
     (by decide) (by decide) rfl rfl⟩

theorem alget_filter_ne {α : Type} (l : List (String × α)) (k : String) :
    alget (l.filter (fun kv => kv.1 != k)) k = none := by
  induction l with
  | nil => rfl
  | cons kv tl ih =>
    obtain ⟨k1, w⟩ := kv
    by_cases h : k1 = k
    · simp [List.filter_cons, h, ih]
    · simp [List.filter_cons, h, alget, ih]

theorem meta_filter_field_nil {meta : List (String × String × String)} {id field : String}
    (hm : meta.filter (fun r => r.1 == id) = []) :
    meta.filter (fun r => r.1 == id && r.2.1 == field) = [] := by
  rw [List.filter_eq_nil_iff] at hm ⊢
  intro a ha
  have := hm a ha
  simp only [Bool.and_eq_true, not_and] at *
  intro h1
  exact absurd h1 this

/-- C7: for every identifier that was never stored, and for every
identifier after `deleteImage`, `getImage` returns `null` and
`getImageField` returns `null`, in both the Redis-backed and the
SQLite-backed adapter. The embedded operations are total functions, so
no execution path throws. -/
theorem C7_absent_returns_null
    (rs : RedisStore) (ss : SqlState) (id field : String)
    (hr : alget rs ("image:" ++ id) = none)
    (hs : alget ss.images id = none)
    (hm : ss.meta.filter (fun r => r.1 == id) = []) :
    redisGetImage rs id = none ∧
    redisGetImageField rs id field = Json.null ∧
    sqliteGetImage ss id = none ∧
    sqliteGetImageField ss id field = Json.null ∧
    (∀ rs2 : RedisStore, redisGetImage (redisDeleteImage rs2 id) id = none) ∧
    (∀ ss2 : SqlState, sqliteGetImage (sqliteDeleteImage ss2 id) id = none) := by
  refine ⟨?_, ?_, ?_, ?_, ?_, ?_⟩
  · simp [redisGetImage, hr]
  · simp [redisGetImageField, hr]
  · simp [sqliteGetImage, hs]
  · unfold sqliteGetImageField
    split
    · simp [hs]
    · rw [meta_filter_field_nil hm]
      rfl
  · intro rs2
    simp [redisGetImage, redisDeleteImage, alget_filter_ne]
  · intro ss2
    simp [sqliteGetImage, sqliteDeleteImage, alget_filter_ne]

/-- Witness for C7 at a concrete input. -/
theorem C7_absent_returns_null_witness :
    redisGetImage [] "nope" = none ∧
    redisGetImageField [] "nope" "status" = Json.null ∧
    sqliteGetImage ⟨[], []⟩ "nope" = none ∧
    sqliteGetImageField ⟨[], []⟩ "nope" "status" = Json.null ∧
    (∀ rs2 : RedisStore, redisGetImage (redisDeleteImage rs2 "nope") "nope" = none) ∧
    (∀ ss2 : SqlState, sqliteGetImage (sqliteDeleteImage ss2 "nope") "nope" = none) :=
  C7_absent_returns_null [] ⟨[], []⟩ "nope" "status" rfl rfl rfl

theorem filter_eq_of_filter_ne (meta : List (String × String × String)) (id : String) :
    (meta.filter (fun r => r.1 != id)).filter (fun r => r.1 == id) = [] := by
  rw [List.filter_eq_nil_iff]
  intro a ha
  have h := (List.mem_filter.mp ha).2
  simpa using h

theorem sqlite_insert_row (ss : SqlState) (id d : String) (md : List (String × Json))
    (hfresh : alget ss.images id = none) :
    alget (sqliteStoreImage ss id (some d) md).images id =
      some { data := some (.str d)
             status := directParam md "status"
             fileName := directParam md "fileName"
             timestamp := directParam md "timestamp" } := by
  simp only [sqliteStoreImage, hfresh]
  rw [alget_append_of_none _ hfresh]
  simp [alget]

theorem sqlite_update_get (ss : SqlState) (id : String) (d2 : Option String)
    (md2 : List (String × Json)) (row : SqlRow) (hrow : alget ss.images id = some row) :
    alget (sqliteStoreImage ss id d2 md2).images id =
      some { data := match d2 with | some d => some (Json.str d) | none => row.data
             status := match directParam md2 "status" with
               | some v => some v | none => row.status
             fileName := match directParam md2 "fileName" with
               | some v => some v | none => row.fileName
             timestamp := match directParam md2 "timestamp" with
               | some v => some v | none => row.timestamp } ∧
    (sqliteStoreImage ss id d2 md2).meta.filter (fun r => r.1 == id) =
      (md2.filter (fun kv =>
        !(kv.1 == "status" || kv.1 == "fileName" || kv.1 == "timestamp"))).map
        (fun kv => (id, kv.1, jstringify kv.2)) := by
  constructor
  · simp only [sqliteStoreImage, hrow]
    exact alget_alset_self _ _ _
  · simp only [sqliteStoreImage, hrow]
    rw [List.filter_append, filter_eq_of_filter_ne, filter_newMeta_self]
    simp

theorem redis_merge_retains (rs : RedisStore) (id : String) (d2 : Option String)
    (md2 : List (String × Json)) (k : String) (hkd : k ≠ "data")
    (hk : ∀ kv ∈ md2, kv.1 ≠ k) :
    redisGetImageField (redisStoreImage rs id d2 md2) id k =
      redisGetImageField rs id k := by
  have hfield : ∀ h0 : RedisHash,
      alget (md2.foldl (fun acc kv => alset acc kv.1 (jstringify kv.2))
        (match d2 with
         | some d => if d = "" then h0 else alset h0 "data" d
         | none => h0)) k = alget h0 k := by
    intro h0
    rw [alget_foldl_alset_of_ne (fun kv => kv.1) (fun kv => jstringify kv.2) md2 _ k hk]
    cases d2 with
    | none => rfl
    | some d =>
      by_cases hd : d = ""
      · simp [hd]
      · simp [hd, alget_alset_ne h0 d hkd]
  simp only [redisGetImageField, redisStoreImage, alget_alset_self]
  rw [hfield ((alget rs ("image:" ++ id)).getD [])]
  cases halget : alget rs ("image:" ++ id) with
  | none => simp [halget, alget]
  | some h => simp [halget]

/-- C2 is refuted as stated: in the Redis adapter a second `storeImage`
call merges — it does not replace — the extra metadata key/value set.
After `store("i", "d1", (a: 1))` followed by `store("i", "d2", (b: 2))`,
the record still contains the old entry `a = 1`, which full replacement
would have removed. -/
theorem C2_counterexample :
    redisGetImage (redisStoreImage (redisStoreImage [] "i" (some "d1") [("a", Json.num 1)])
        "i" (some "d2") [("b", Json.num 2)]) "i" =
      some [("data", Json.str "d2"), ("a", Json.num 1), ("b", Json.num 2)] ∧
    alget [("data", Json.str "d2"), ("a", Json.num 1), ("b", Json.num 2)] "a" =
      some (Json.num 1) ∧ some (Json.num 1) ≠ none := by
  refine ⟨rfl, rfl, by simp⟩

/-- C2 (amended): a second `storeImage` call overwrites only the fields
supplied, in both adapters. In the SQLite adapter this presupposes the
metadata map supplies bindable `status`, `fileName` and `timestamp`
values — on absent or non-scalar ones the driver throws a `TypeError`
and the transaction is rolled back — and within that region the
supplied direct fields overwrite, direct fields supplied as JSON `null`
are retained via `COALESCE`, and the extra metadata rows are fully
replaced by the new set. The Redis adapter merges: metadata keys not
supplied in the second call retain their prior values. The concrete
pending-then-completed instance holds in the Redis adapter as stated,
and in the SQLite adapter when each call also supplies `fileName` and
`timestamp`. -/
theorem C2_overwrite_semantics :
    (∀ (ss : SqlState) (id : String) (d2 : Option String) (md2 : List (String × Json))
        (row : SqlRow), alget ss.images id = some row → directBindsOk md2 = true →
      ∃ s2, sqliteStoreImageChecked ss id d2 md2 = some s2 ∧
        alget s2.images id =
          some { data := match d2 with | some d => some (Json.str d) | none => row.data
                 status := match directParam md2 "status" with
                   | some v => some v | none => row.status
                 fileName := match directParam md2 "fileName" with
                   | some v => some v | none => row.fileName
                 timestamp := match directParam md2 "timestamp" with
                   | some v => some v | none => row.timestamp } ∧
        s2.meta.filter (fun r => r.1 == id) =
          (md2.filter (fun kv =>
            !(kv.1 == "status" || kv.1 == "fileName" || kv.1 == "timestamp"))).map
            (fun kv => (id, kv.1, jstringify kv.2))) ∧
    (∀ (ss : SqlState) (id : String) (d2 : Option String) (md2 : List (String × Json)),
      directBindsOk md2 = false → sqliteStoreImageChecked ss id d2 md2 = none) ∧
    (∀ (rs : RedisStore) (id : String) (d2 : Option String) (md2 : List (String × Json))
        (k : String), k ≠ "data" → (∀ kv ∈ md2, kv.1 ≠ k) →
      redisGetImageField (redisStoreImage rs id d2 md2) id k =
        redisGetImageField rs id k) ∧
    (∀ (rs : RedisStore) (id d1 d2 : String), d2 ≠ "" →
      ∃ rec, redisGetImage (redisStoreImage (redisStoreImage rs id (some d1)
          [("status", .str "pending")]) id (some d2) [("status", .str "completed")]) id =
          some rec ∧
        alget rec "status" = some (.str "completed") ∧
        alget rec "data" = some (.str d2)) ∧
    (∀ (ss : SqlState) (id d1 d2 fn ts fn2 ts2 : String),
      alget ss.images id = none → ss.meta.filter (fun r => r.1 == id) = [] →
      ∃ s1 s2 rec,
        sqliteStoreImageChecked ss id (some d1)
          [("status", .str "pending"), ("fileName", .str fn), ("timestamp", .str ts)] =
          some s1 ∧
        sqliteStoreImageChecked s1 id (some d2)
          [("status", .str "completed"), ("fileName", .str fn2),
           ("timestamp", .str ts2)] = some s2 ∧
        sqliteGetImage s2 id = some rec ∧
        alget rec "status" = some (.str "completed") ∧
        alget rec "data" = some (.str d2)) := by
  refine ⟨?_, ?_, fun rs id d2 md2 k hkd hk => redis_merge_retains rs id d2 md2 k hkd hk,
    ?_, ?_⟩
  · intro ss id d2 md2 row hrow hbind
    exact ⟨sqliteStoreImage ss id d2 md2, by simp [sqliteStoreImageChecked, hbind],
      (sqlite_update_get ss id d2 md2 row hrow).1, (sqlite_update_get ss id d2 md2 row hrow).2⟩
  · intro ss id d2 md2 hbind
    simp [sqliteStoreImageChecked, hbind]
  · intro rs id d1 d2 hd2
    obtain ⟨rec, hget, hdata, hmd⟩ :=
      redis_roundtrip (redisStoreImage rs id (some d1) [("status", .str "pending")]) id d2
        [("status", .str "completed")] hd2 (by simp) (by decide)
    exact ⟨rec, hget, hmd ("status", .str "completed") (by simp), hdata⟩
  · intro ss id d1 d2 fn ts fn2 ts2 hfresh hmeta
    have hrow1 := sqlite_insert_row ss id d1
      [("status", .str "pending"), ("fileName", .str fn), ("timestamp", .str ts)] hfresh
    obtain ⟨hrow2, hmeta2⟩ := sqlite_update_get
      (sqliteStoreImage ss id (some d1)
        [("status", .str "pending"), ("fileName", .str fn), ("timestamp", .str ts)]) id
      (some d2)
      [("status", .str "completed"), ("fileName", .str fn2), ("timestamp", .str ts2)]
      _ hrow1
    refine ⟨sqliteStoreImage ss id (some d1)
      [("status", .str "pending"), ("fileName", .str fn), ("timestamp", .str ts)],
      sqliteStoreImage (sqliteStoreImage ss id (some d1)
        [("status", .str "pending"), ("fileName", .str fn), ("timestamp", .str ts)]) id
        (some d2)
        [("status", .str "completed"), ("fileName", .str fn2), ("timestamp", .str ts2)],
      [("data", Json.str d2), ("status", Json.str "completed"),
       ("fileName", Json.str fn2), ("timestamp", Json.str ts2)],
      by simp [sqliteStoreImageChecked, directBindsOk, alget, sqlBindable],
      by simp [sqliteStoreImageChecked, directBindsOk, alget, sqlBindable], ?_, rfl, rfl⟩
    simp only [sqliteGetImage, hrow2, hmeta2]
    simp [directParam, alget]

/-- Witness for the amended C2 at concrete inputs. -/
theorem C2_overwrite_semantics_witness :
    ("d2" : String) ≠ "" ∧
    (∃ rec, redisGetImage (redisStoreImage (redisStoreImage [] "i" (some "d1")
        [("status", .str "pending")]) "i" (some "d2") [("status", .str "completed")]) "i" =
        some rec ∧
      alget rec "status" = some (.str "completed") ∧
      alget rec "data" = some (.str "d2")) ∧
    (∃ s1 s2 rec,
      sqliteStoreImageChecked ⟨[], []⟩ "i" (some "d1")
        [("status", .str "pending"), ("fileName", .str "f"), ("timestamp", .str "t")] =
        some s1 ∧
      sqliteStoreImageChecked s1 "i" (some "d2")
        [("status", .str "completed"), ("fileName", .str "f2"),
         ("timestamp", .str "t2")] = some s2 ∧
      sqliteGetImage s2 "i" = some rec ∧
      alget rec "status" = some (.str "completed") ∧
      alget rec "data" = some (.str "d2")) :=
  ⟨by decide,
   C2_overwrite_semantics.2.2.2.1 [] "i" "d1" "d2" (by decide),
   C2_overwrite_semantics.2.2.2.2 ⟨[], []⟩ "i" "d1" "d2" "f" "t" "f2" "t2" rfl rfl⟩

/-- Redis side of the amended C6: for every field other than `data`, when
the hash stores only non-empty values at that field (as `storeImage`
always does for metadata, which is `JSON.stringify`-ed), `getImageField`
equals the projection of `getImage`. -/
theorem redis_getField_eq_proj (rs : RedisStore) (id field : String)
    (hf : field ≠ "data")
    (hwf : ∀ h, alget rs ("image:" ++ id) = some h →
      ∀ v, alget h field = some v → v ≠ "") :
    redisGetImageField rs id field = jsProj (redisGetImage rs id) field := by
  cases hh : alget rs ("image:" ++ id) with
  | none => simp [redisGetImageField, redisGetImage, jsProj, hh]
  | some h =>
    by_cases hnil : h = []
    · subst hnil
      simp [redisGetImageField, redisGetImage, jsProj, hh, alget]
    · cases hfield : alget h field with
      | none =>
        simp only [redisGetImageField, redisGetImage, jsProj, hh]
        simp [hnil, hfield,
          alget_map (fun k v => if k = "data" then Json.str v else jparseOr v) h field]
      | some v =>
        have hv : v ≠ "" := hwf h hh v hfield
        simp only [redisGetImageField, redisGetImage, jsProj, hh]
        simp [hnil, hfield, hv, hf,
          alget_map (fun k v => if k = "data" then Json.str v else jparseOr v) h field]

theorem meta_filter_comm (meta : List (String × String × String)) (id field : String) :
    meta.filter (fun r => r.1 == id && r.2.1 == field) =
      (meta.filter (fun r => r.1 == id)).filter (fun r => r.2.1 == field) := by
  rw [List.filter_filter]
  congr 1
  funext a
  rw [Bool.and_comm]

/-- SQLite side of the amended C6: on database states respecting the
schema constraints (metadata rows reference an existing image row,
unique (imageId, key) pairs, metadata keys distinct from the four direct
column names), `getImageField` equals the projection of `getImage` for
every field. -/
theorem sqlite_getField_eq_proj (ss : SqlState) (id field : String)
    (hfk : alget ss.images id = none → ss.meta.filter (fun r => r.1 == id) = [])
    (hdir : ∀ r ∈ ss.meta, r.1 = id →
      r.2.1 ≠ "data" ∧ r.2.1 ≠ "status" ∧ r.2.1 ≠ "fileName" ∧ r.2.1 ≠ "timestamp")
    (hnd : ((ss.meta.filter (fun r => r.1 == id)).map (fun r => r.2.1)).Nodup) :
    sqliteGetImageField ss id field = jsProj (sqliteGetImage ss id) field := by
  cases hrow : alget ss.images id with
  | none =>
    have hm := hfk hrow
    unfold sqliteGetImageField
    split
    · simp [hrow, sqliteGetImage, jsProj]
    · rw [meta_filter_comm, hm]
      simp [sqliteGetImage, jsProj, hrow]
  | some row =>
    set base : List (String × Json) := [
      ("data", row.data.getD Json.null),
      ("status", row.status.getD Json.null),
      ("fileName", row.fileName.getD Json.null),
      ("timestamp", row.timestamp.getD Json.null)] with hbase
    set metaRows := ss.meta.filter (fun r => r.1 == id) with hmr
    have hrec : sqliteGetImage ss id =
        some (metaRows.foldl (fun acc r => alset acc r.2.1 (jparseOr r.2.2)) base) := by
      simp [sqliteGetImage, hrow, hmr, hbase]
    have hproj : jsProj (sqliteGetImage ss id) field =
        (alget (metaRows.foldl (fun acc r => alset acc r.2.1 (jparseOr r.2.2)) base)
          field).getD Json.null := by
      rw [hrec]
      rfl
    unfold sqliteGetImageField
    split
    case isTrue hdirf =>
      have hfour : field = "data" ∨ field = "status" ∨ field = "fileName" ∨
          field = "timestamp" := by simpa [or_assoc] using hdirf
      have hne : ∀ r ∈ metaRows, r.2.1 ≠ field := by
        intro r hrr
        have h2 := List.mem_filter.mp hrr
        have h3 := hdir r h2.1 (by simpa using h2.2)
        rcases hfour with rfl | rfl | rfl | rfl
        exacts [h3.1, h3.2.1, h3.2.2.1, h3.2.2.2]
      rw [hproj]
      rw [alget_foldl_alset_of_ne (fun r => r.2.1) (fun r => jparseOr r.2.2) metaRows base
        field hne]
      simp only [hrow]
      rcases hfour with rfl | rfl | rfl | rfl <;> simp [hbase, alget]
    case isFalse hdirf =>
      have h4 : field ≠ "data" ∧ field ≠ "status" ∧ field ≠ "fileName" ∧
          field ≠ "timestamp" := by simpa [and_assoc] using hdirf
      rw [meta_filter_comm, ← hmr]
      cases hflt : metaRows.filter (fun r => r.2.1 == field) with
      | nil =>
        have hne : ∀ r ∈ metaRows, r.2.1 ≠ field := by
          intro r hrr hreq
          have hin : r ∈ metaRows.filter (fun r => r.2.1 == field) :=
            List.mem_filter.mpr ⟨hrr, by simp [hreq]⟩
          rw [hflt] at hin
          simp at hin
        rw [hproj]
        rw [alget_foldl_alset_of_ne (fun r => r.2.1) (fun r => jparseOr r.2.2) metaRows base
          field hne]
        simp [hbase, alget, Ne.symm h4.1, Ne.symm h4.2.1, Ne.symm h4.2.2.1,
          Ne.symm h4.2.2.2]
      | cons r rest =>
        have hrmem : r ∈ metaRows.filter (fun r => r.2.1 == field) := by
          rw [hflt]
          exact List.mem_cons_self r rest
        have hr := List.mem_filter.mp hrmem
        have hmem : r ∈ metaRows := hr.1
        have hkey : r.2.1 = field := by simpa using hr.2
        have hfold := alget_foldl_alset_of_mem (fun r => r.2.1) (fun r => jparseOr r.2.2)
          metaRows base r hmem (hmr ▸ hnd)
        simp only at hfold
        rw [hkey] at hfold
        rw [hproj, hfold]
        simp

/-- C6 is refuted as stated: in the Redis adapter `getImageField` is not
equivalent to `getImage` projection for the `data` field. Storing data
`"123"` makes `getImage(id).data` the raw string `"123"` while
`getImageField(id, "data")` JSON-parses it to the number `123`. -/
theorem C6_counterexample :
    redisGetImageField (redisStoreImage [] "i" (some "123") []) "i" "data" = Json.num 123 ∧
    jsProj (redisGetImage (redisStoreImage [] "i" (some "123") []) "i") "data" =
      Json.str "123" ∧
    Json.num 123 ≠ Json.str "123" := ⟨rfl, rfl, by simp⟩

/-- C6 (amended): `getImageField` is a read optimization equivalent to
the projection of `getImage` (with `null` for an absent record or field)
in the SQLite adapter for every field, on database states respecting the
schema constraints (metadata rows reference an existing image row,
unique (imageId, key) pairs, metadata keys distinct from the direct
column names); and in the Redis adapter for every field other than
`data`, on hashes whose non-`data` values are non-empty (as `storeImage`
always writes). For the Redis `data` field the equivalence fails. -/
theorem C6_getField_refines_get :
    (∀ (ss : SqlState) (id field : String),
      (alget ss.images id = none → ss.meta.filter (fun r => r.1 == id) = []) →
      (∀ r ∈ ss.meta, r.1 = id →
        r.2.1 ≠ "data" ∧ r.2.1 ≠ "status" ∧ r.2.1 ≠ "fileName" ∧ r.2.1 ≠ "timestamp") →
      ((ss.meta.filter (fun r => r.1 == id)).map (fun r => r.2.1)).Nodup →
      sqliteGetImageField ss id field = jsProj (sqliteGetImage ss id) field) ∧
    (∀ (rs : RedisStore) (id field : String), field ≠ "data" →
      (∀ h, alget rs ("image:" ++ id) = some h → ∀ v, alget h field = some v → v ≠ "") →
      redisGetImageField rs id field = jsProj (redisGetImage rs id) field) :=
  ⟨fun ss id field hfk hdir hnd => sqlite_getField_eq_proj ss id field hfk hdir hnd,
   fun rs id field hf hwf => redis_getField_eq_proj rs id field hf hwf⟩

/-- Witness for the amended C6 at concrete inputs. -/
theorem C6_getField_refines_get_witness :
    (∀ r ∈ [("i", "extra", "1")], r.1 = "i" →
      r.2.1 ≠ "data" ∧ r.2.1 ≠ "status" ∧ r.2.1 ≠ "fileName" ∧ r.2.1 ≠ "timestamp") ∧
    sqliteGetImageField ⟨[("i", ⟨some (.str "d"), some (.str "pending"), none, none⟩)],
        [("i", "extra", "1")]⟩ "i" "extra" =
      jsProj (sqliteGetImage ⟨[("i", ⟨some (.str "d"), some (.str "pending"), none, none⟩)],
        [("i", "extra", "1")]⟩ "i") "extra" ∧
    redisGetImageField [("image:i", [("status", "\"pending\"")])] "i" "status" =
      jsProj (redisGetImage [("image:i", [("status", "\"pending\"")])] "i") "status" := by
  refine ⟨by decide, ?_, ?_⟩
  · exact C6_getField_refines_get.1
      ⟨[("i", ⟨some (.str "d"), some (.str "pending"), none, none⟩)],
        [("i", "extra", "1")]⟩ "i" "extra"
      (by intro h; simp [alget] at h) (by decide) (by decide)
  · refine C6_getField_refines_get.2 [("image:i", [("status", "\"pending\"")])] "i"
      "status" (by decide) ?_
    intro h hh v hv
    have hh2 : h = [("status", "\"pending\"")] := by
      have : alget [("image:i", [("status", "\"pending\"")])] ("image:" ++ "i") =
          some [("status", "\"pending\"")] := by decide
      rw [this] at hh
      exact (Option.some.injEq .. ▸ hh.symm)
    subst hh2
    simp [alget] at hv
    subst hv
    decide

theorem sqlite_store_getField_status (s : SqlState) (id d : String)
    (md : List (String × Json)) (v : Json) (hst : directParam md "status" = some v) :
    sqliteGetImageField (sqliteStoreImage s id (some d) md) id "status" = v := by
  cases hrow : alget s.images id with
  | none =>
    have hins := sqlite_insert_row s id d md hrow
    simp [sqliteGetImageField, hins, hst]
  | some row =>
    have hupd := (sqlite_update_get s id (some d) md row hrow).1
    simp [sqliteGetImageField, hupd, hst]

theorem sqlite_store_getField_data (s : SqlState) (id d : String)
    (md : List (String × Json)) :
    sqliteGetImageField (sqliteStoreImage s id (some d) md) id "data" = Json.str d := by
  cases hrow : alget s.images id with
  | none =>
    have hins := sqlite_insert_row s id d md hrow
    simp [sqliteGetImageField, hins]
  | some row =>
    have hupd := (sqlite_update_get s id (some d) md row hrow).1
    simp [sqliteGetImageField, hupd]

theorem sqlite_store_getField_errorMessage (s : SqlState) (id d fn ts e : String)
    (row : SqlRow) (hrow : alget s.images id = some row) :
    sqliteGetImageField (sqliteStoreImage s id (some d)
      [("fileName", .str fn), ("timestamp", .str ts), ("status", .str "error"),
       ("errorMessage", .str e)]) id "errorMessage" = Json.str e := by
  have hupd := (sqlite_update_get s id (some d)
    [("fileName", .str fn), ("timestamp", .str ts), ("status", .str "error"),
     ("errorMessage", .str e)] row hrow).2
  simp only [sqliteGetImageField]
  rw [meta_filter_comm, hupd]
  simp [jparseOr_jstringify]

/-- C3 is refuted as stated: when the Generation Client returns `null`
(as it does on a missing credential, and — per the shipped client — on
any API error), the continuation returns without writing, and the
record remains `pending`, which is not a terminal state. -/
theorem C3_counterexample :
    processAndStoreImage (sqliteStoreImage ⟨[], []⟩ "id1" (some "orig")
      [("status", .str "pending")]) "id1" "f.png" "t" none =
      some (sqliteStoreImage ⟨[], []⟩ "id1" (some "orig") [("status", .str "pending")]) ∧
    sqliteGetImageField (sqliteStoreImage ⟨[], []⟩ "id1" (some "orig")
      [("status", .str "pending")]) "id1" "status" = Json.str "pending" ∧
    Json.str "pending" ≠ Json.str "completed" ∧ Json.str "pending" ≠ Json.str "error" := by
  refine ⟨rfl, rfl, by simp, by simp⟩

/-- C3 (amended): on a successful Generation Client result the
continuation persists status `completed` together with the generated
image data; on a truthy error result (over an existing record) it
persists status `error` together with the error message; but on a `null`
result it returns without writing, leaving the record in its prior
(pending) state. -/
theorem C3_continuation_outcomes :
    (∀ (s : SqlState) (id fn ts img : String),
      ∃ s2, processAndStoreImage s id fn ts (some ⟨none, some img⟩) = some s2 ∧
        sqliteGetImageField s2 id "status" = .str "completed" ∧
        sqliteGetImageField s2 id "data" = .str (extractBase64 img)) ∧
    (∀ (s : SqlState) (id fn ts e : String) (row : SqlRow), e ≠ "" →
      alget s.images id = some row →
      ∃ s2, processAndStoreImage s id fn ts (some ⟨some e, none⟩) = some s2 ∧
        sqliteGetImageField s2 id "status" = .str "error" ∧
        sqliteGetImageField s2 id "errorMessage" = .str e) ∧
    (∀ (s : SqlState) (id fn ts : String), processAndStoreImage s id fn ts none = some s) := by
  refine ⟨?_, ?_, fun s id fn ts => rfl⟩
  · intro s id fn ts img
    refine ⟨sqliteStoreImage s id (some (extractBase64 img))
      [("fileName", .str fn), ("timestamp", .str ts), ("status", .str "completed")],
      rfl, ?_, ?_⟩
    · exact sqlite_store_getField_status s id _ _ (.str "completed") rfl
    · exact sqlite_store_getField_data s id _ _
  · intro s id fn ts e row hne hrow
    have heb : (e == "") = false := by simp [hne]
    refine ⟨sqliteStoreImage s id (some "")
      [("fileName", .str fn), ("timestamp", .str ts), ("status", .str "error"),
       ("errorMessage", .str e)], ?_, ?_, ?_⟩
    · simp [processAndStoreImage, heb]
    · exact sqlite_store_getField_status s id _ _ (.str "error") rfl
    · exact sqlite_store_getField_errorMessage s id "" fn ts e row hrow

/-- Witness for the amended C3 at concrete inputs. -/
theorem C3_continuation_outcomes_witness :
    ("boom" : String) ≠ "" ∧
    alget (sqliteStoreImage ⟨[], []⟩ "i" (some "orig")
      [("status", .str "pending")]).images "i" =
      some ⟨some (.str "orig"), some (.str "pending"), none, none⟩ ∧
    (∃ s2, processAndStoreImage (sqliteStoreImage ⟨[], []⟩ "i" (some "orig")
        [("status", .str "pending")]) "i" "f.png" "t" (some ⟨some "boom", none⟩) = some s2 ∧
      sqliteGetImageField s2 "i" "status" = .str "error" ∧
      sqliteGetImageField s2 "i" "errorMessage" = .str "boom") ∧
    (∃ s2, processAndStoreImage ⟨[], []⟩ "i" "f.png" "t"
        (some ⟨none, some "data:image/png;base64,XYZ"⟩) = some s2 ∧
      sqliteGetImageField s2 "i" "status" = .str "completed" ∧
      sqliteGetImageField s2 "i" "data" = .str (extractBase64 "data:image/png;base64,XYZ")) :=
  ⟨by decide, rfl,
   C3_continuation_outcomes.2.1 (sqliteStoreImage ⟨[], []⟩ "i" (some "orig")
     [("status", .str "pending")]) "i" "f.png" "t" "boom"
     ⟨some (.str "orig"), some (.str "pending"), none, none⟩ (by decide) rfl,
   C3_continuation_outcomes.1 ⟨[], []⟩ "i" "f.png" "t" "data:image/png;base64,XYZ"⟩

/-- C4: the code bug demonstrated. `processImageAndPrompt` returns `null`
when the API credential is absent, but also returns `null` — not a
structured error result — when the external call throws: the catch
block swallows the message (`generateImageWithGptImage` would have
wrapped it as `API error: ...`), so the orchestrator's `response.error`
branch can never run and no error state is persisted. -/
theorem C4_processImageAndPrompt_null_on_error :
    processImageAndPrompt (some "key") (Except.error "boom") = none ∧
    processImageAndPrompt none (Except.ok (some "b64")) = none ∧
    generateImageWithGptImage (Except.error "boom") = Except.error ("API error: boom") ∧
    processImageAndPrompt (some "key") (Except.ok (some "b64")) =
      some { image := "data:image/png;base64," ++ "b64" } :=
  ⟨rfl, rfl, rfl, rfl⟩

/-- C5: `convertToPng` crops a centred square — for a landscape image the
crop removes `(width - height)/2` from each side, for a portrait image
`(height - width)/2` from top and bottom, and a square image is not
cropped — and draws it onto a 1024×1024 canvas; for a 1600×900 input the
crop is `sourceX = 350, sourceY = 0, sourceWidth = sourceHeight = 900`. -/
theorem C5_convertToPng_crop :
    (∀ w h : ℚ, w > h →
      (convertToPng w h).sourceX = (w - h) / 2 ∧ (convertToPng w h).sourceY = 0 ∧
      (convertToPng w h).sourceWidth = h ∧ (convertToPng w h).sourceHeight = h) ∧
    (∀ w h : ℚ, h > w →
      (convertToPng w h).sourceX = 0 ∧ (convertToPng w h).sourceY = (h - w) / 2 ∧
      (convertToPng w h).sourceWidth = w ∧ (convertToPng w h).sourceHeight = w) ∧
    (∀ w : ℚ, (convertToPng w w).sourceX = 0 ∧ (convertToPng w w).sourceY = 0 ∧
      (convertToPng w w).sourceWidth = w ∧ (convertToPng w w).sourceHeight = w) ∧
    (∀ w h : ℚ, (convertToPng w h).canvasWidth = 1024 ∧
      (convertToPng w h).canvasHeight = 1024 ∧ (convertToPng w h).destX = 0 ∧
      (convertToPng w h).destY = 0 ∧ (convertToPng w h).destWidth = 1024 ∧
      (convertToPng w h).destHeight = 1024) ∧
    ((convertToPng 1600 900).sourceX = 350 ∧ (convertToPng 1600 900).sourceY = 0 ∧
      (convertToPng 1600 900).sourceWidth = 900 ∧
      (convertToPng 1600 900).sourceHeight = 900) := by
  refine ⟨?_, ?_, ?_, ?_, ?_⟩
  · intro w h hwh
    have hne : w ≠ h := ne_of_gt hwh
    simp [convertToPng, hne, hwh]
  · intro w h hhw
    have hne : w ≠ h := ne_of_lt hhw
    have hng : ¬w > h := not_lt.mpr (le_of_lt hhw)
    simp [convertToPng, hne, hng]
  · intro w
    simp [convertToPng]
  · intro w h
    by_cases hne : w = h
    · simp [convertToPng, hne]
    · by_cases hgt : w > h <;> simp [convertToPng, hne, hgt]
  · norm_num [convertToPng]

/-- Witness for C5 at the concrete 1600×900 input. -/
theorem C5_convertToPng_crop_witness :
    (1600 : ℚ) > 900 ∧
    ((convertToPng 1600 900).sourceX = (1600 - 900) / 2 ∧
      (convertToPng 1600 900).sourceY = 0 ∧
      (convertToPng 1600 900).sourceWidth = 900 ∧
      (convertToPng 1600 900).sourceHeight = 900) :=
  ⟨by decide, C5_convertToPng_crop.1 1600 900 (by decide)⟩

/-- C8: the comparison widget's divider position is
`((x - L) / W) * 100` clamped to `[0, 100]`, identically for mouse and
touch events; with `W = 400` and `L = 0`, `clientX = 300` yields 75, a
position right of the container yields 100, and one left of it yields
0. -/
theorem C8_divider_position :
    (∀ x L W : ℚ, W > 0 →
      handleMouseMove x L W = min 100 (max 0 ((x - L) / W * 100)) ∧
      handleTouchMove x L W = handleMouseMove x L W ∧
      0 ≤ handleMouseMove x L W ∧ handleMouseMove x L W ≤ 100) ∧
    handleMouseMove 300 0 400 = 75 ∧
    handleMouseMove 500 0 400 = 100 ∧
    handleMouseMove (-10) 0 400 = 0 ∧
    handleTouchMove 300 0 400 = 75 := by
  refine ⟨?_, ?_, ?_, ?_, ?_⟩
  · intro x L W _
    refine ⟨?_, rfl, le_max_left _ _, max_le (by norm_num) (min_le_left _ _)⟩
    rw [handleMouseMove, max_min_distrib_left]
    norm_num
  · norm_num [handleMouseMove, min_def, max_def]
  · norm_num [handleMouseMove, min_def, max_def]
  · norm_num [handleMouseMove, min_def, max_def]
  · norm_num [handleTouchMove, min_def, max_def]

/-- Witness for C8 at the concrete 400-pixel container. -/
theorem C8_divider_position_witness :
    (400 : ℚ) > 0 ∧
    (handleMouseMove 300 0 400 = min 100 (max 0 ((300 - 0) / 400 * 100)) ∧
      handleTouchMove 300 0 400 = handleMouseMove 300 0 400 ∧
      0 ≤ handleMouseMove 300 0 400 ∧ handleMouseMove 300 0 400 ≤ 100) :=
  ⟨by decide, C8_divider_position.1 300 0 400 (by decide)⟩

/-- C9: when a record has no `fileType` metadata entry, the image loader
serves it with content type `image/jpeg`; the completion path of the
pipeline writes only `fileName`, `timestamp` and `status`, so a
generated (PNG) image's record has no `fileType` entry and is served as
`image/jpeg`. -/
theorem C9_default_content_type :
    (∀ rec : List (String × Json), alget rec "fileType" = none →
      loaderContentType rec = Json.str "image/jpeg") ∧
    (∀ (s : SqlState) (id fn ts img : String) (row : SqlRow),
      alget s.images id = some row →
      ∃ s2 rec, processAndStoreImage s id fn ts (some ⟨none, some img⟩) = some s2 ∧
        sqliteGetImage s2 id = some rec ∧ alget rec "fileType" = none ∧
        loaderContentType rec = Json.str "image/jpeg") := by
  constructor
  · intro rec h
    simp [loaderContentType, h]
  · intro s id fn ts img row hrow
    obtain ⟨hrow2, hmeta2⟩ := sqlite_update_get s id (some (extractBase64 img))
      [("fileName", .str fn), ("timestamp", .str ts), ("status", .str "completed")] row hrow
    refine ⟨sqliteStoreImage s id (some (extractBase64 img))
      [("fileName", .str fn), ("timestamp", .str ts), ("status", .str "completed")],
      [("data", .str (extractBase64 img)), ("status", .str "completed"),
       ("fileName", .str fn), ("timestamp", .str ts)], rfl, ?_, rfl, rfl⟩
    simp only [sqliteGetImage, hrow2, hmeta2]
    simp [directParam, alget]

/-- Witness for C9 at a concrete input. -/
theorem C9_default_content_type_witness :
    alget [("i", (⟨some (.str "d"), some (.str "pending"), none, none⟩ : SqlRow))] "i" =
      some ⟨some (.str "d"), some (.str "pending"), none, none⟩ ∧
    (∃ s2 rec, processAndStoreImage
        ⟨[("i", ⟨some (.str "d"), some (.str "pending"), none, none⟩)], []⟩ "i" "f.png" "t"
        (some ⟨none, some "data:image/png;base64,XYZ"⟩) = some s2 ∧
      sqliteGetImage s2 "i" = some rec ∧ alget rec "fileType" = none ∧
      loaderContentType rec = Json.str "image/jpeg") :=
  ⟨rfl, C9_default_content_type.2
    ⟨[("i", ⟨some (.str "d"), some (.str "pending"), none, none⟩)], []⟩ "i" "f.png" "t"
    "data:image/png;base64,XYZ" ⟨some (.str "d"), some (.str "pending"), none, none⟩ rfl⟩

/-- C10: the Redis adapter's `getImageField` returns `null` whenever the
stored hash value at the field is the empty string (the falsy check
conflates empty with absent), and equally when the record is absent;
after `storeImage` with empty data on a fresh identifier the `data`
field is reported absent (the empty string is never even written); and
the status endpoint's response logic maps the `null` field value to the
same not-found response as a missing record, so the two are
indistinguishable. -/
theorem C10_empty_conflated_with_absent :
    (∀ (rs : RedisStore) (id field : String) (h : RedisHash),
      alget rs ("image:" ++ id) = some h → alget h field = some "" →
      redisGetImageField rs id field = Json.null) ∧
    (∀ (rs : RedisStore) (id field : String),
      alget rs ("image:" ++ id) = none → redisGetImageField rs id field = Json.null) ∧
    (∀ (rs : RedisStore) (id : String) (md : List (String × Json)),
      (∀ kv ∈ md, kv.1 ≠ "data") → alget rs ("image:" ++ id) = none →
      redisGetImageField (redisStoreImage rs id (some "") md) id "data" = Json.null) ∧
    (∀ em : Json, statusRespOf Json.null em = .notFound) := by
  refine ⟨?_, ?_, ?_, fun em => rfl⟩
  · intro rs id field h hh hfield
    simp [redisGetImageField, hh, hfield]
  · intro rs id field hh
    simp [redisGetImageField, hh]
  · intro rs id md hmd hh
    simp only [redisStoreImage, redisGetImageField, hh, alget_alset_self]
    rw [alget_foldl_alset_of_ne (fun kv => kv.1) (fun kv => jstringify kv.2) md _ "data" hmd]
    rfl

/-- Witness for C10 at concrete inputs. -/
theorem C10_empty_conflated_with_absent_witness :
    alget [("image:i", [("data", "")])] ("image:" ++ "i") = some [("data", "")] ∧
    redisGetImageField [("image:i", [("data", "")])] "i" "data" = Json.null ∧
    redisGetImageField [] "i" "data" = Json.null ∧
    redisGetImageField (redisStoreImage [] "i" (some "")
      [("status", .str "error")]) "i" "data" = Json.null ∧
    statusRespOf Json.null (Json.str "x") = .notFound :=
  ⟨rfl,
   C10_empty_conflated_with_absent.1 [("image:i", [("data", "")])] "i" "data"
     [("data", "")] rfl rfl,
   C10_empty_conflated_with_absent.2.1 [] "i" "data" rfl,
   C10_empty_conflated_with_absent.2.2.1 [] "i" [("status", .str "error")] (by decide) rfl,
   C10_empty_conflated_with_absent.2.2.2 (Json.str "x")⟩
